import Mathlib

/-!
Verification of the transparent data-at-rest encryption core of
Percona XtraDB Cluster (`storage/innobase/os/os0enc.cc`).

The development shallowly embeds the page/log cryptor and the
encryption-info codec.  Byte buffers are modelled as functions
`Nat → Nat` (byte value at an offset); in-place writes become
functional updates; `memcpy`/`my_aes_*` calls on a region become
`store`/`extract` of a byte list.

The AES primitive (`my_aes_encrypt` / `my_aes_decrypt`, called with a
fixed key and IV per invocation) and CRC32 (`ut_crc32`) are external
collaborators of the core (spec §1 lists them as out of scope / supplied
primitives and their sources are not part of the analysed tree), so they
are modelled as parameters: an abstract length-preserving invertible
`Cipher` and an abstract `crc : List Nat → Nat` function.
-/

namespace Model

/-- A byte buffer: the byte stored at each offset.  C pointers into page
or log buffers become offsets into such a function. -/
abbrev Buf := Nat → Nat

/-- `memcpy(b + off, l, l.length)`: overwrite `l.length` bytes of `b`
starting at `off` with the bytes of `l`. -/
def store (b : Buf) (off : Nat) (l : List Nat) : Buf :=
  fun i => if off ≤ i ∧ i < off + l.length then l.getD (i - off) 0 else b i

/-- Read `n` bytes of `b` starting at `off` as a list. -/
def extract (b : Buf) (off n : Nat) : List Nat :=
  (List.range n).map (fun j => b (off + j))

/-- Big-endian bytes of a 16-bit value, as written by `mach_write_to_2`. -/
def byte2 (v : Nat) : List Nat := [v / 256 % 256, v % 256]

/-- Big-endian bytes of a 32-bit value, as written by `mach_write_to_4`. -/
def byte4 (v : Nat) : List Nat :=
  [v / 16777216 % 256, v / 65536 % 256, v / 256 % 256, v % 256]

/-- `mach_write_to_2(b + off, v)`. -/
def w2 (b : Buf) (off v : Nat) : Buf := store b off (byte2 v)

/-- `mach_write_to_4(b + off, v)`. -/
def w4 (b : Buf) (off v : Nat) : Buf := store b off (byte4 v)

/-- `mach_read_from_2(b + off)` (big-endian 16-bit read). -/
def r2 (b : Buf) (off : Nat) : Nat := b off % 256 * 256 + b (off + 1) % 256

/-- `mach_read_from_4(b + off)` (big-endian 32-bit read). -/
def r4 (b : Buf) (off : Nat) : Nat :=
  b off % 256 * 16777216 + b (off + 1) % 256 * 65536 +
    b (off + 2) % 256 * 256 + b (off + 3) % 256

/-- The supplied block-cipher primitive: one `my_aes_encrypt` /
`my_aes_decrypt` pair for a fixed key, IV, mode and `padding = false`
(each call in the source passes the context's key and IV afresh, so a
call is a pure function of the input bytes). -/
structure Cipher where
  enc : List Nat → List Nat
  dec : List Nat → List Nat

/-- The contract of the AES primitive on block-aligned input: it
preserves length and `dec` inverts `enc`. -/
def Lawful (c : Cipher) : Prop :=
  (∀ l, (c.enc l).length = l.length) ∧
  (∀ l, (c.dec l).length = l.length) ∧
  (∀ l, c.dec (c.enc l) = l)

/-- A concrete lawful cipher (bytewise involution) used to instantiate
witnesses. -/
def xorCipher : Cipher where
  enc := fun l => l.map (fun b => 255 - b % 256 + b / 256 * 256)
  dec := fun l => l.map (fun b => 255 - b % 256 + b / 256 * 256)

/-- The two-pass tail scheme on a data region, as a list transformation
(`encrypt_low` lines 1180-1227, `encrypt_log_block` lines 988-1043):
AES-encrypt the block-aligned prefix, copy the residual tail, then
re-encrypt the final two-block window in place. -/
def encDataL (c : Cipher) (p : List Nat) : List Nat :=
  let n := p.length
  let chunk := n / 16 * 16
  let A := c.enc (p.take chunk)
  if n - chunk = 0 then A
  else
    let pre := A ++ p.drop chunk
    pre.take (n - 32) ++ c.enc (pre.drop (n - 32))

/-- The reverse two-pass scheme (`decrypt` lines 1640-1699,
`decrypt_log_block` lines 1410-1450): decrypt the two-block tail window
into scratch, copy the rest, then decrypt the block-aligned prefix. -/
def decDataL (c : Cipher) (q : List Nat) : List Nat :=
  let n := q.length
  let main := n / 16 * 16
  if n - main = 0 then c.dec q
  else
    let T := q.take (n - 32) ++ c.dec (q.drop (n - 32))
    c.dec (T.take main) ++ T.drop main

/-!
Page-layout constants.  `FIL_PAGE_TYPE` (24), `FIL_PAGE_LSN` (16),
`FIL_PAGE_DATA` (38), `FIL_PAGE_ORIGINAL_TYPE_V1` (28),
`FIL_PAGE_COMPRESS_SIZE_V1` (32), `FIL_PAGE_END_LSN_OLD_CHKSUM` (8 bytes
from the end) and the page-type codes are the standard InnoDB layout;
their defining header is not part of the analysed tree, and the spec
fixes the 38-byte header, the ENCRYPTED code 15 (spec §8 S1) and that
`FIL_PAGE_ORIGINAL_TYPE_V1` lies inside the first `FIL_PAGE_DATA` bytes
(spec §6).  `FIL_PAGE_ENCRYPTION_KEY_VERSION` is likewise modelled from
the spec: its header is missing, the spec fixes no numeric offset but
requires a 4-byte field inside the copied header that is disjoint from
`FIL_PAGE_TYPE` and `FIL_PAGE_ORIGINAL_TYPE_V1` (spec §6, §8); offset 30
realizes that.
-/

def FIL_PAGE_TYPE : Nat := 24

def FIL_PAGE_LSN : Nat := 16

def FIL_PAGE_DATA : Nat := 38

def FIL_PAGE_ORIGINAL_TYPE_V1 : Nat := 28

def FIL_PAGE_COMPRESS_SIZE_V1 : Nat := 32

def FIL_PAGE_ENCRYPTION_KEY_VERSION : Nat := 30

def FIL_PAGE_END_LSN_OLD_CHKSUM : Nat := 8

def FIL_PAGE_TYPE_ALLOCATED : Nat := 0

def FIL_PAGE_COMPRESSED : Nat := 14

def FIL_PAGE_ENCRYPTED : Nat := 15

def FIL_PAGE_COMPRESSED_AND_ENCRYPTED : Nat := 16

def FIL_PAGE_ENCRYPTED_RTREE : Nat := 17

def FIL_PAGE_RTREE : Nat := 17854

def FIL_PAGE_INDEX : Nat := 17855

def MY_AES_BLOCK_SIZE : Nat := 16

def KEY_LEN : Nat := 32

/-- Minimum length needed for encryption (`os0enc.cc` line 65):
`2 * MY_AES_BLOCK_SIZE + FIL_PAGE_DATA`. -/
def MIN_ENCRYPTION_LEN : Nat := 2 * MY_AES_BLOCK_SIZE + FIL_PAGE_DATA

/-- `Encryption::Type` (`NONE` / `AES` / `KEYRING`). -/
inductive EType
  | NONE
  | AES
  | KEYRING
deriving DecidableEq

/-- The encryption context fields that the page/log cryptor reads:
`m_type` and `m_key_version` (the key and IV are carried by the
`Cipher` parameter; `m_encryption_rotation` is `NO_ROTATION` in the
modelled contexts, so `m_checksum` stays 0 and the
`fil_crypt_calculate_checksum` writes are no-ops). -/
structure Ctx where
  mtype : EType
  keyVersion : Nat

/-- `mach_read_from_2(src + FIL_PAGE_TYPE)`. -/
def pageTypeOf (b : Buf) : Nat := r2 b FIL_PAGE_TYPE

/-- Whether the page type is one of the three encrypted page types
(`Encryption::is_encrypted_page`). -/
def is_encrypted_page (b : Buf) : Prop :=
  pageTypeOf b = FIL_PAGE_ENCRYPTED ∨
  pageTypeOf b = FIL_PAGE_COMPRESSED_AND_ENCRYPTED ∨
  pageTypeOf b = FIL_PAGE_ENCRYPTED_RTREE

instance (b : Buf) : Decidable (is_encrypted_page b) := by
  unfold is_encrypted_page
  infer_instance

/-- `DST_HEADER_SIZE` of `encrypt_low` (lines 1125-1128). -/
def encDstHeaderSize (m : EType) (pt : Nat) : Nat :=
  if m = EType.KEYRING ∧ pt = FIL_PAGE_COMPRESSED then FIL_PAGE_DATA + 8
  else FIL_PAGE_DATA

/-- `src_enc_len` of `encrypt_low` (lines 1134-1145). -/
def srcEncLenOf (src : Buf) (srcLen : Nat) : Nat :=
  if pageTypeOf src = FIL_PAGE_COMPRESSED then
    max (r2 src FIL_PAGE_COMPRESS_SIZE_V1 + FIL_PAGE_DATA) MIN_ENCRYPTION_LEN
  else srcLen

/-- `data_len` of `encrypt_low` (lines 1160-1171). -/
def encDataLenOf (m : EType) (zip : Bool) (src : Buf) (srcLen : Nat) : Nat :=
  let srcEncLen := srcEncLenOf src srcLen
  if m = EType.KEYRING ∧ pageTypeOf src = FIL_PAGE_COMPRESSED then
    srcEncLen - FIL_PAGE_DATA
  else if m = EType.KEYRING ∧ ¬zip then
    srcEncLen - FIL_PAGE_DATA - 4
  else srcEncLen - FIL_PAGE_DATA

/-- Result of `Encryption::encrypt_low`: the (possibly mutated) source
buffer, the destination buffer, and the reported `*dst_len`. -/
structure EncOut where
  src : Buf
  dst : Buf
  dstLen : Nat

/-- The data-region pass of `encrypt_low` (lines 1180-1227): AES-encrypt
the block-aligned chunk of `src + FIL_PAGE_DATA` into
`dst + DST_HEADER_SIZE`, copy the residual tail bytes, then re-encrypt
the final two-block window of the destination in place. -/
def encDataStage (c : Cipher) (DHS dataLen : Nat) (src : Buf) (dst0 : Buf) : Buf :=
  let chunk := dataLen / MY_AES_BLOCK_SIZE * MY_AES_BLOCK_SIZE
  let remain := dataLen - chunk
  let d1 := store dst0 DHS (c.enc (extract src FIL_PAGE_DATA chunk))
  if remain = 0 then d1
  else
    let d1' := store d1 (DHS + chunk) (extract src (FIL_PAGE_DATA + chunk) remain)
    store d1' (DHS + dataLen - 32) (c.enc (extract d1' (DHS + dataLen - 32) 32))

/-- `Encryption::encrypt_low` (lines 1120-1322), for a context whose
`m_encryption_rotation` is `NO_ROTATION` (so `m_checksum` is 0 and the
rotation-only checksum writes are skipped).  `zip` is
`type.is_page_zip_compressed()`.  The abstract `Cipher` stands for
`my_aes_encrypt` with the context's key and IV; block-size failure
(`MY_AES_BAD_DATA`) cannot arise for a total cipher, so the error exits
at lines 1189-1195 and 1215-1221 do not appear. -/
def encrypt_low (c : Cipher) (ctx : Ctx) (zip : Bool) (src : Buf) (srcLen : Nat)
    (dst0 : Buf) : EncOut :=
  let pt := pageTypeOf src
  let DHS := encDstHeaderSize ctx.mtype pt
  let dataLen := encDataLenOf ctx.mtype zip src srcLen
  let srcEncLen := srcEncLenOf src srcLen
  let d2 := encDataStage c DHS dataLen src dst0
  -- memmove(dst, src, FIL_PAGE_DATA)
  let d3 := store d2 0 (extract src 0 FIL_PAGE_DATA)
  -- rewrite FIL_PAGE_TYPE / FIL_PAGE_ORIGINAL_TYPE_V1
  let d4 :=
    if pt = FIL_PAGE_COMPRESSED then
      w2 d3 FIL_PAGE_TYPE FIL_PAGE_COMPRESSED_AND_ENCRYPTED
    else if pt = FIL_PAGE_RTREE then
      w2 d3 FIL_PAGE_TYPE FIL_PAGE_ENCRYPTED_RTREE
    else
      w2 (w2 d3 FIL_PAGE_TYPE FIL_PAGE_ENCRYPTED) FIL_PAGE_ORIGINAL_TYPE_V1 pt
  -- memset padding of the unused portion
  let d5 :=
    if srcEncLen < srcLen then
      store d4 (DHS + dataLen) (List.replicate (srcLen - DHS - dataLen) 0)
    else d4
  if ctx.mtype = EType.KEYRING then
    let d6 :=
      if pt = FIL_PAGE_COMPRESSED then
        w4 (store d5 FIL_PAGE_DATA (List.replicate 4 0)) (FIL_PAGE_DATA + 4)
          ctx.keyVersion
      else d5
    -- mach_write_to_4(src + FIL_PAGE_ENCRYPTION_KEY_VERSION, m_key_version)
    let src1 := w4 src FIL_PAGE_ENCRYPTION_KEY_VERSION ctx.keyVersion
    let d7 :=
      if pt = FIL_PAGE_COMPRESSED then d6
      else w4 d6 FIL_PAGE_ENCRYPTION_KEY_VERSION ctx.keyVersion
    ⟨src1, d7, srcLen⟩
  else ⟨src, d5, srcLen⟩

/-- `HEADER_SIZE` of `Encryption::decrypt` (lines 1603-1606). -/
def decHeaderSize (m : EType) (pt : Nat) : Nat :=
  if m = EType.KEYRING ∧ pt = FIL_PAGE_COMPRESSED_AND_ENCRYPTED then
    FIL_PAGE_DATA + 8
  else FIL_PAGE_DATA

/-- `data_len` of `Encryption::decrypt` (lines 1622-1630). -/
def decDataLenOf (m : EType) (zip : Bool) (pt srcLen : Nat) : Nat :=
  let d0 := srcLen - decHeaderSize m pt
  if m = EType.KEYRING ∧ pt = FIL_PAGE_COMPRESSED_AND_ENCRYPTED then d0 + 8
  else if pt = FIL_PAGE_ENCRYPTED ∧ m = EType.KEYRING ∧ ¬zip then d0 - 4
  else d0

/-- The scratch block of `Encryption::decrypt` after the copy-in passes
(lines 1640-1674): the two-block tail window is AES-decrypted into the
scratch area and the remaining cipher bytes are copied over. -/
def decScratch (c : Cipher) (HS dataLen : Nat) (b : Buf) : List Nat :=
  if dataLen - dataLen / MY_AES_BLOCK_SIZE * MY_AES_BLOCK_SIZE ≠ 0 then
    extract b HS (dataLen - 32) ++ c.dec (extract b (HS + dataLen - 32) 32)
  else extract b HS dataLen

/-- The data-region pass of `Encryption::decrypt` (lines 1640-1699):
AES-decrypt the block-aligned prefix of the scratch block back into the
page at `wbase`, then copy the already-decrypted tail back. -/
def decDataStage (c : Cipher) (HS wbase dataLen : Nat) (b : Buf) (b1 : Buf) : Buf :=
  let mainLen := dataLen / MY_AES_BLOCK_SIZE * MY_AES_BLOCK_SIZE
  let T := decScratch c HS dataLen b
  let b2 := store b1 wbase (c.dec (T.take mainLen))
  store b2 (wbase + mainLen) (T.drop mainLen)

/-- `Encryption::decrypt` (lines 1542-1771).  The page is decrypted in
place in `b`; the scratch block allocated when the caller passes no
output buffer is the temporary area `T`.  `none` is the
`DB_IO_DECRYPT_FAIL` exit for an encrypted page with `m_type == NONE`;
a plaintext page is returned unchanged (`DB_SUCCESS`).  For
compressed-and-encrypted pages the length is recomputed from
`FIL_PAGE_COMPRESS_SIZE_V1`; `Compression::deserialize_header` is
modelled from the spec (its source is not in the analysed tree): a
version-1 compression header aligns the length to the I/O block size
`bs`, otherwise the length is clamped to `MIN_ENCRYPTION_LEN`, the
version byte living at offset 26 of the compression header. -/
def decrypt (c : Cipher) (ctx : Ctx) (zip : Bool) (bs : Nat) (b : Buf)
    (srcLen0 : Nat) : Option Buf :=
  if is_encrypted_page b ∧ ctx.mtype = EType.NONE then none
  else if ¬is_encrypted_page b ∨ ctx.mtype = EType.NONE then some b
  else
    let pt := pageTypeOf b
    let srcLen :=
      if pt = FIL_PAGE_COMPRESSED_AND_ENCRYPTED then
        let zl := r2 b FIL_PAGE_COMPRESS_SIZE_V1
        let sl := zl + FIL_PAGE_DATA
        if b 26 % 256 = 1 then (sl + bs - 1) / bs * bs
        else max sl MIN_ENCRYPTION_LEN
      else srcLen0
    let HS := decHeaderSize ctx.mtype pt
    let origType := r2 b FIL_PAGE_ORIGINAL_TYPE_V1
    let dataLen := decDataLenOf ctx.mtype zip pt srcLen
    -- for keyring compressed pages, ptr -= 8 and the 8 stale bytes are zeroed
    let wbase :=
      if ctx.mtype = EType.KEYRING ∧ pt = FIL_PAGE_COMPRESSED_AND_ENCRYPTED then
        HS - 8
      else HS
    let b1 :=
      if ctx.mtype = EType.KEYRING ∧ pt = FIL_PAGE_COMPRESSED_AND_ENCRYPTED then
        store b (FIL_PAGE_DATA + dataLen) (List.replicate 8 0)
      else b
    let b3 := decDataStage c HS wbase dataLen b b1
    -- keyring non-compressed pages: restore the trailing LSN mirror
    let b4 :=
      if ctx.mtype = EType.KEYRING ∧ pt ≠ FIL_PAGE_COMPRESSED_AND_ENCRYPTED ∧
          ¬zip then
        store b3 (srcLen - FIL_PAGE_END_LSN_OLD_CHKSUM + 4)
          (extract b3 (FIL_PAGE_LSN + 4) 4)
      else b3
    -- restore the original page type
    let b5 :=
      if pt = FIL_PAGE_ENCRYPTED then w2 b4 FIL_PAGE_TYPE origType
      else if pt = FIL_PAGE_ENCRYPTED_RTREE then w2 b4 FIL_PAGE_TYPE FIL_PAGE_RTREE
      else w2 b4 FIL_PAGE_TYPE FIL_PAGE_COMPRESSED
    -- mark the original type as "was encrypted"
    let b6 :=
      if origType ≠ FIL_PAGE_TYPE_ALLOCATED ∧
          pt ≠ FIL_PAGE_COMPRESSED_AND_ENCRYPTED then
        w2 b5 FIL_PAGE_ORIGINAL_TYPE_V1 FIL_PAGE_ENCRYPTED
      else b5
    some b6

/-!
Redo-log block constants: a block is a fixed `OS_FILE_LOG_BLOCK_SIZE` =
512 byte unit with a 12-byte header (`LOG_BLOCK_HDR_SIZE`) and a 4-byte
trailer (`LOG_BLOCK_TRL_SIZE`) holding the checksum in its last 4 bytes.
The header that defines them and the `log_block_*` accessors is not part
of the analysed tree; they are modelled from the spec (§3, §4.5: fixed
512-byte unit, header `LOG_BLOCK_HDR_SIZE`, trailer checksum) and the
upstream layout: the checksum is the big-endian word in the last 4
bytes, `log_block_calc_checksum_crc32` is the CRC32 of the first
512 - 4 bytes, and the encrypted bit is the top bit of the 2-byte
data-length field at offset 4.
-/

def OS_FILE_LOG_BLOCK_SIZE : Nat := 512

def LOG_BLOCK_HDR_SIZE : Nat := 12

def LOG_BLOCK_TRL_SIZE : Nat := 4

def REDO_LOG_ENCRYPT_NO_VERSION : Nat := 0

def log_block_set_encrypt_bit (b : Buf) (flag : Bool) : Buf :=
  store b 4 [if flag then b 4 % 128 + 128 else b 4 % 128]

def log_block_get_encrypt_bit (b : Buf) : Bool := b 4 / 128 % 2 = 1

def log_block_calc_checksum_crc32 (crc : List Nat → Nat) (b : Buf) : Nat :=
  crc (extract b 0 (OS_FILE_LOG_BLOCK_SIZE - LOG_BLOCK_TRL_SIZE))

def log_block_set_checksum (b : Buf) (v : Nat) : Buf :=
  w4 b (OS_FILE_LOG_BLOCK_SIZE - LOG_BLOCK_TRL_SIZE) v

def log_block_get_checksum (b : Buf) : Nat :=
  r4 b (OS_FILE_LOG_BLOCK_SIZE - LOG_BLOCK_TRL_SIZE)

/-- `Encryption::encrypt_log_block` (lines 963-1093): copy the 12-byte
header, apply the two-pass AES scheme to the payload (for keyring mode
the 4-byte trailer stays unencrypted), set the encrypted bit, and for
keyring mode overwrite the checksum with
`crc32(encrypted block) + m_key_version` (the `mach_write_to_4` in
`log_block_set_checksum` wraps the sum modulo 2^32). -/
def encrypt_log_block (c : Cipher) (ctx : Ctx) (crc : List Nat → Nat)
    (src : Buf) (dst0 : Buf) : Buf :=
  let trl := if ctx.mtype = EType.KEYRING then LOG_BLOCK_TRL_SIZE else 0
  let dataLen := OS_FILE_LOG_BLOCK_SIZE - LOG_BLOCK_HDR_SIZE - trl
  let mainLen := dataLen / MY_AES_BLOCK_SIZE * MY_AES_BLOCK_SIZE
  let remain := dataLen - mainLen
  let d1 := store dst0 0 (extract src 0 LOG_BLOCK_HDR_SIZE)
  let d2 := store d1 LOG_BLOCK_HDR_SIZE
      (c.enc (extract src LOG_BLOCK_HDR_SIZE mainLen))
  let d3 := store d2 (LOG_BLOCK_HDR_SIZE + mainLen)
      (extract src (LOG_BLOCK_HDR_SIZE + mainLen)
        (OS_FILE_LOG_BLOCK_SIZE - LOG_BLOCK_HDR_SIZE - mainLen))
  let d4 :=
    if remain ≠ 0 then
      store d3 (LOG_BLOCK_HDR_SIZE + dataLen - 32)
        (c.enc (extract d3 (LOG_BLOCK_HDR_SIZE + dataLen - 32) 32))
    else d3
  let d5 := log_block_set_encrypt_bit d4 true
  if ctx.mtype = EType.KEYRING then
    log_block_set_checksum d5
      (log_block_calc_checksum_crc32 crc d5 + ctx.keyVersion)
  else d5

/-- `Encryption::decrypt_log_block` (lines 1373-1482).  For keyring mode
the encrypting key version is recovered as
`written_checksum - crc32(cipher block)`; both operands are `ulint`
(64-bit), so the subtraction is modulo 2^64, and if the result differs
from the context's version (and is not `REDO_LOG_ENCRYPT_NO_VERSION`)
the key for that version is loaded (`redo_log_key_mgr.load_key_version`,
modelled by `load`, returning the loaded version and the cipher for the
loaded key).  Returns the decrypted block, the key version used, and
the cipher used; `none` is the `DB_UNSUPPORTED` exit for `m_type`
outside `{AES, KEYRING}`. -/
def decrypt_log_block (cur : Cipher) (ctx : Ctx) (crc : List Nat → Nat)
    (load : Nat → Nat × Cipher) (b : Buf) : Option (Buf × Nat × Cipher) :=
  if ctx.mtype = EType.NONE then none
  else
    let trl := if ctx.mtype = EType.KEYRING then LOG_BLOCK_TRL_SIZE else 0
    let dataLen := OS_FILE_LOG_BLOCK_SIZE - LOG_BLOCK_HDR_SIZE - trl
    let kc :=
      if ctx.mtype = EType.KEYRING then
        let blockCrc := log_block_calc_checksum_crc32 crc b
        let written := log_block_get_checksum b
        let encKv := (written + 18446744073709551616 -
          blockCrc % 18446744073709551616) % 18446744073709551616
        if ctx.keyVersion ≠ encKv ∧ encKv ≠ REDO_LOG_ENCRYPT_NO_VERSION then
          load encKv
        else (ctx.keyVersion, cur)
      else (ctx.keyVersion, cur)
    let b3 := decDataStage kc.2 LOG_BLOCK_HDR_SIZE LOG_BLOCK_HDR_SIZE dataLen b b
    let b4 := log_block_set_encrypt_bit b3 false
    let b5 :=
      if ctx.mtype = EType.KEYRING then
        log_block_set_checksum b4 (log_block_calc_checksum_crc32 crc b4)
      else b4
    some (b5, kc.1, kc.2)

/-!
Encryption-info codec.  The magic constants and `INFO_SIZE` live in the
missing header; they are modelled from the spec (§6): three distinct
3-byte magics with v3 = "lCA" and v1 = "lCB" (the spec does not give
the v2 value; any third distinct value serves), a 4-byte master key id,
a 36-byte server uuid, the 64-byte wrapped key‖iv region and a 4-byte
CRC32 over the plaintext key‖iv.  `DEFAULT_MASTER_KEY` is the
hard-coded bootstrap key string (spec §3), zero-padded to the 32-byte
key buffer by `ut_zalloc` + `strcpy` / `memcpy`.
-/

def MAGIC_SIZE : Nat := 3

def SERVER_UUID_LEN : Nat := 36

def KEY_MAGIC_V1 : List Nat := [108, 67, 66]

def KEY_MAGIC_V2 : List Nat := [108, 67, 67]

def KEY_MAGIC_V3 : List Nat := [108, 67, 65]

def DEFAULT_MASTER_KEY : List Nat :=
  [68, 101, 102, 97, 117, 108, 116, 77, 97, 115, 116, 101, 114, 75, 101, 121]

def defaultMasterKeyBytes : List Nat :=
  DEFAULT_MASTER_KEY ++ List.replicate (KEY_LEN - DEFAULT_MASTER_KEY.length) 0

/-- `Encryption::Version`. -/
inductive Version
  | VERSION_1
  | VERSION_2
  | VERSION_3
deriving DecidableEq

/-- `mach_read_from_4` on a byte list. -/
def rd4 (l : List Nat) (off : Nat) : Nat :=
  l.getD off 0 % 256 * 16777216 + l.getD (off + 1) 0 % 256 * 65536 +
    l.getD (off + 2) 0 % 256 * 256 + l.getD (off + 3) 0 % 256

/-- External collaborators of the codec: AES-256-ECB decryption under a
master key (`my_aes_decrypt`), CRC32 (`ut_crc32`), and the keyring
master-key fetch (`Encryption::get_master_key(key_id, srv_uuid, &key)`;
`none` as the uuid models the legacy `server_id`-based name form). -/
structure CodecExt where
  ecbDec : List Nat → List Nat → List Nat
  crc : List Nat → Nat
  fetchMaster : Nat → Option (List Nat) → Option (List Nat)

/-- The magic dispatch of `decode_encryption_info` (lines 830-847). -/
def magicOf (blob : List Nat) : Option Version :=
  if blob.take MAGIC_SIZE = KEY_MAGIC_V1 then some Version.VERSION_1
  else if blob.take MAGIC_SIZE = KEY_MAGIC_V2 then some Version.VERSION_2
  else if blob.take MAGIC_SIZE = KEY_MAGIC_V3 then some Version.VERSION_3
  else none

/-- `Encryption::get_master_key_from_info` (lines 724-807), returning
the offset of the wrapped key region, the master key bytes, the decoded
master key id, and the decoded server uuid (`none` for V1, which has no
uuid field).  `none` overall is the `*master_key == nullptr` failure
path.  For V1/V2 a zero word after the id means the legacy 8-byte id
encoding and shifts the layout by 4 bytes. -/
def get_master_key_from_info (ext : CodecExt) (blob : List Nat) (v : Version) :
    Option (Nat × List Nat × Nat × Option (List Nat)) :=
  let keyId := rd4 blob MAGIC_SIZE
  match v with
  | Version.VERSION_1 =>
    let off := if rd4 blob (MAGIC_SIZE + 4) = 0 then MAGIC_SIZE + 8
      else MAGIC_SIZE + 4
    (ext.fetchMaster keyId none).map (fun mk => (off, mk, keyId, none))
  | Version.VERSION_2 =>
    let off := if rd4 blob (MAGIC_SIZE + 4) = 0 then MAGIC_SIZE + 8
      else MAGIC_SIZE + 4
    let uuid := (blob.drop off).take SERVER_UUID_LEN
    (ext.fetchMaster keyId (some uuid)).map
      (fun mk => (off + SERVER_UUID_LEN, mk, keyId, some uuid))
  | Version.VERSION_3 =>
    let uuid := (blob.drop (MAGIC_SIZE + 4)).take SERVER_UUID_LEN
    if keyId = 0 then
      some (MAGIC_SIZE + 4 + SERVER_UUID_LEN, defaultMasterKeyBytes, 0,
        some uuid)
    else
      (ext.fetchMaster keyId (some uuid)).map
        (fun mk => (MAGIC_SIZE + 4 + SERVER_UUID_LEN, mk, keyId, some uuid))

/-- Result of `decode_encryption_info`: the boolean return value, the
decoded `(key, iv)` when the function reached the output `memcpy`s
(`none` for the recovery no-op return at lines 840-842), and the
process-wide `s_master_key_id` / `s_uuid` after the call. -/
structure DecodeOut where
  ok : Bool
  out : Option (List Nat × List Nat)
  sId : Nat
  sUuid : List Nat

/-- `Encryption::decode_encryption_info` (lines 814-943), with the
process-wide state `(s_master_key_id, s_uuid)` passed and returned
explicitly.  `recovery` is `recv_recovery_is_on()`.  For an
unrecognized magic: success without output during recovery, failure
otherwise.  With `decrypt_key` the master key is fetched and the
wrapped 64-byte region decrypted (AES-256-ECB); without it the region
is copied as-is (V3 layout).  The CRC32 over the (decrypted) key‖iv
must equal the stored word or the function fails.  On a successful
decrypt, `s_master_key_id` is advanced to the decoded id only when the
decoded id is strictly greater. -/
def decode_encryption_info (ext : CodecExt) (recovery : Bool) (sId : Nat)
    (sUuid : List Nat) (blob : List Nat) (decrypt_key : Bool) : DecodeOut :=
  match magicOf blob with
  | none =>
    if recovery then ⟨true, none, sId, sUuid⟩ else ⟨false, none, sId, sUuid⟩
  | some v =>
    let step :=
      if decrypt_key then
        (get_master_key_from_info ext blob v).map
          (fun r => (r.1, ext.ecbDec r.2.1 ((blob.drop r.1).take (KEY_LEN * 2)),
            r.2.2.1, r.2.2.2))
      else
        some (MAGIC_SIZE + 4 + SERVER_UUID_LEN,
          (blob.drop (MAGIC_SIZE + 4 + SERVER_UUID_LEN)).take (KEY_LEN * 2),
          0, none)
    match step with
    | none => ⟨false, none, sId, sUuid⟩
    | some (off, keyInfo, mkid, uuid) =>
      let crc1 := rd4 blob (off + KEY_LEN * 2)
      let crc2 := ext.crc keyInfo
      if crc1 ≠ crc2 then ⟨false, none, sId, sUuid⟩
      else
        let key := keyInfo.take KEY_LEN
        let iv := (keyInfo.drop KEY_LEN).take KEY_LEN
        if decrypt_key ∧ sId < mkid then
          ⟨true, some (key, iv), mkid, uuid.getD sUuid⟩
        else ⟨true, some (key, iv), sId, sUuid⟩

/-- The `s_master_key_id` effect of `Encryption::create_master_key`
(lines 404-441): the id is incremented exactly when the generate+fetch
of the new key succeeded. -/
def create_master_key_sid (sId : Nat) (fetchOk : Bool) : Nat :=
  if fetchOk then sId + 1 else sId

/-- The `s_master_key_id` effect of the lazy first-key path of
`Encryption::get_master_key(master_key_id, master_key)` (lines
495-600): when the current id is `DEFAULT_MASTER_KEY_ID` (0) the first
master key is generated and, on success, the id advances to 1; on any
other id the function only fetches and leaves the id unchanged. -/
def get_master_key_sid (sId : Nat) (fetchOk : Bool) : Nat :=
  if sId = 0 then (if fetchOk then 1 else 0) else sId

/-- Concrete fixtures used to instantiate witnesses. -/
def zeroBuf : Buf := fun _ => 0

def cPage : Buf := fun i =>
  (if i = 24 then 69 else if i = 25 then 191 else if i = 28 then 7 else 171) % 256

/-- A concrete R-tree page (`FIL_PAGE_TYPE` = `FIL_PAGE_RTREE` = 17854). -/
def rtPage : Buf := fun i =>
  (if i = 24 then 69 else if i = 25 then 190 else 171) % 256

def ctxA : Ctx := ⟨EType.AES, 0⟩

def ctxK : Ctx := ⟨EType.KEYRING, 5⟩

def wExt : CodecExt :=
  ⟨fun _ d => d, fun _ => 0, fun _ _ => none⟩

def wBlob2 : List Nat :=
  KEY_MAGIC_V3 ++ List.replicate 4 0 ++ List.replicate 36 0 ++
    List.replicate 64 0 ++ [0, 0, 0, 1]

/-- Witness fixtures: a constant CRC, an identity key loader, and two
keyring contexts with distinct key versions. -/
def crc7 : List Nat → Nat := fun _ => 7

def load7 : Nat → Nat × Cipher := fun v => (v, xorCipher)

def ctxK2 : Ctx := ⟨EType.KEYRING, 2⟩

def ctxK3 : Ctx := ⟨EType.KEYRING, 3⟩

/-- A CRC function pinned at 2^32 - 1, to exhibit the 32-bit wrap of the
log-block checksum. -/
def crcBig : List Nat → Nat := fun _ => 4294967295

/-- The keyring-mode body of `encrypt_log_block` up to (but excluding)
the final checksum overwrite (lines 1000-1053): header copy, two-pass
AES of the payload leaving the 4-byte trailer out, and the encrypt
bit. -/
def encLogBody (c : Cipher) (src d0 : Buf) : Buf :=
  let dataLen := OS_FILE_LOG_BLOCK_SIZE - LOG_BLOCK_HDR_SIZE - LOG_BLOCK_TRL_SIZE
  let mainLen := dataLen / MY_AES_BLOCK_SIZE * MY_AES_BLOCK_SIZE
  let remain := dataLen - mainLen
  let d1 := store d0 0 (extract src 0 LOG_BLOCK_HDR_SIZE)
  let d2 := store d1 LOG_BLOCK_HDR_SIZE
      (c.enc (extract src LOG_BLOCK_HDR_SIZE mainLen))
  let d3 := store d2 (LOG_BLOCK_HDR_SIZE + mainLen)
      (extract src (LOG_BLOCK_HDR_SIZE + mainLen)
        (OS_FILE_LOG_BLOCK_SIZE - LOG_BLOCK_HDR_SIZE - mainLen))
  let d4 :=
    if remain ≠ 0 then
      store d3 (LOG_BLOCK_HDR_SIZE + dataLen - 32)
        (c.enc (extract d3 (LOG_BLOCK_HDR_SIZE + dataLen - 32) 32))
    else d3
  log_block_set_encrypt_bit d4 true

theorem extract_length (b : Buf) (off n : Nat) : (extract b off n).length = n := by
  simp [extract]

theorem extract_getElem (b : Buf) (off n j : Nat)
    (h2 : j < (extract b off n).length) :
    (extract b off n)[j] = b (off + j) := by
  simp [extract]

theorem extract_getD (b : Buf) (off n j : Nat) (h : j < n) :
    (extract b off n).getD j 0 = b (off + j) := by
  rw [List.getD_eq_getElem _ _ (by simpa [extract_length] using h)]
  exact extract_getElem b off n j (by simpa [extract_length] using h)

theorem store_apply_in (b : Buf) (off : Nat) (l : List Nat) (j : Nat)
    (h : j < l.length) : store b off l (off + j) = l.getD j 0 := by
  simp only [store]
  rw [if_pos (by omega)]
  congr 1
  omega

theorem store_apply_out (b : Buf) (off : Nat) (l : List Nat) (i : Nat)
    (h : i < off ∨ off + l.length ≤ i) : store b off l i = b i := by
  simp only [store]
  rw [if_neg (by omega)]

theorem extract_congr {b b' : Buf} (off n : Nat)
    (h : ∀ i, off ≤ i → i < off + n → b i = b' i) :
    extract b off n = extract b' off n := by
  simp only [extract]
  apply List.map_congr_left
  intro j hj
  exact h (off + j) (by omega) (by have := List.mem_range.mp hj; omega)

theorem extract_store_eq (b : Buf) (off : Nat) (l : List Nat) :
    extract (store b off l) off l.length = l := by
  apply List.ext_getElem (by simp [extract_length])
  intro j h1 h2
  rw [extract_getElem _ _ _ _ (by simpa [extract_length] using h1)]
  rw [store_apply_in _ _ _ _ (by simpa [extract_length] using h1)]
  rw [List.getD_eq_getElem _ _ h2]

theorem extract_store_disjoint (b : Buf) (off n off' : Nat) (l : List Nat)
    (h : off + n ≤ off' ∨ off' + l.length ≤ off) :
    extract (store b off' l) off n = extract b off n := by
  apply extract_congr
  intro i h1 h2
  exact store_apply_out _ _ _ _ (by omega)

theorem extract_split (b : Buf) (off m k : Nat) :
    extract b off (m + k) = extract b off m ++ extract b (off + m) k := by
  apply List.ext_getElem (by simp [extract_length])
  intro j h1 h2
  rw [extract_getElem _ _ _ _ (by simpa [extract_length] using h1)]
  rcases Nat.lt_or_ge j m with hj | hj
  · rw [List.getElem_append_left (by simpa [extract_length] using hj)]
    rw [extract_getElem _ _ _ _ (by simpa [extract_length] using hj)]
  · rw [List.getElem_append_right (by simpa [extract_length] using hj)]
    rw [extract_getElem _ _ _ _ (by
      simp only [extract_length]
      have hjk : j < m + k := by simpa [extract_length] using h1
      omega)]
    congr 1
    simp [extract_length]
    omega

theorem extract_take (b : Buf) (off n k : Nat) (h : k ≤ n) :
    (extract b off n).take k = extract b off k := by
  have : n = k + (n - k) := by omega
  rw [this, extract_split]
  rw [List.take_left' (extract_length b off k)]

theorem extract_drop (b : Buf) (off n k : Nat) (h : k ≤ n) :
    (extract b off n).drop k = extract b (off + k) (n - k) := by
  have h2 : n = k + (n - k) := by omega
  rw [h2, extract_split]
  rw [List.drop_left' (extract_length b off k)]
  congr 1
  omega

theorem store_store_overwrite (b : Buf) (off k : Nat) (l l₂ : List Nat)
    (h : k + l₂.length = l.length) :
    store (store b off l) (off + k) l₂ = store b off (l.take k ++ l₂) := by
  funext i
  simp only [store, List.length_append, List.length_take]
  rcases Nat.lt_or_ge i off with h1 | h1
  · rw [if_neg (by omega), if_neg (by omega), if_neg (by omega)]
  · rcases Nat.lt_or_ge i (off + k) with h2 | h2
    · rw [if_neg (by omega), if_pos (by omega), if_pos (by omega)]
      rw [List.getD_eq_getElem _ _ (by omega)]
      rw [List.getD_eq_getElem _ _ (by simp [List.length_take]; omega)]
      rw [List.getElem_append_left (by simp [List.length_take]; omega)]
      rw [List.getElem_take]
    · rcases Nat.lt_or_ge i (off + l.length) with h3 | h3
      · rw [if_pos (by omega), if_pos (by omega)]
        rw [List.getD_eq_getElem _ _ (by omega)]
        rw [List.getD_eq_getElem _ _ (by simp [List.length_take]; omega)]
        rw [List.getElem_append_right (by simp [List.length_take]; omega)]
        congr 1
        simp [List.length_take]
        omega
      · rw [if_neg (by omega), if_neg (by omega), if_neg (by omega)]

theorem store_store_append (b : Buf) (off : Nat) (l₁ l₂ : List Nat) :
    store (store b off l₁) (off + l₁.length) l₂ = store b off (l₁ ++ l₂) := by
  funext i
  simp only [store, List.length_append]
  rcases Nat.lt_or_ge i off with h1 | h1
  · rw [if_neg (by omega), if_neg (by omega), if_neg (by omega)]
  · rcases Nat.lt_or_ge i (off + l₁.length) with h2 | h2
    · rw [if_neg (by omega), if_pos (by omega), if_pos (by omega)]
      rw [List.getD_eq_getElem _ _ (by omega)]
      rw [List.getD_eq_getElem _ _ (by simp; omega)]
      rw [List.getElem_append_left (by omega)]
    · rcases Nat.lt_or_ge i (off + l₁.length + l₂.length) with h3 | h3
      · rw [if_pos (by omega), if_pos (by omega)]
        rw [List.getD_eq_getElem _ _ (by omega)]
        rw [List.getD_eq_getElem _ _ (by simp; omega)]
        rw [List.getElem_append_right (by omega)]
        congr 1
        omega
      · rw [if_neg (by omega), if_neg (by omega), if_neg (by omega)]

theorem xorCipher_lawful : Lawful xorCipher := by
  refine ⟨fun l => by simp [xorCipher], fun l => by simp [xorCipher], fun l => ?_⟩
  simp only [xorCipher, List.map_map]
  have : ((fun b => 255 - b % 256 + b / 256 * 256) ∘
      fun b => 255 - b % 256 + b / 256 * 256) = fun (b : Nat) => b := by
    funext b
    simp only [Function.comp]
    have h1 : b % 256 < 256 := Nat.mod_lt _ (by omega)
    have h2 : (255 - b % 256 + b / 256 * 256) % 256 = 255 - b % 256 := by
      rw [Nat.add_mul_mod_self_right]
      exact Nat.mod_eq_of_lt (by omega)
    have h3 : (255 - b % 256 + b / 256 * 256) / 256 = b / 256 := by
      rw [Nat.add_mul_div_right _ _ (by omega : (0:Nat) < 256)]
      rw [Nat.div_eq_of_lt (by omega)]
      omega
    rw [h2, h3]
    omega
  rw [this]
  exact List.map_id' l

theorem encDataL_length (c : Cipher) (hc : Lawful c) (p : List Nat)
    (hp : 32 ≤ p.length) : (encDataL c p).length = p.length := by
  obtain ⟨hlen, _, _⟩ := hc
  simp only [encDataL]
  set n := p.length with hn
  set chunk := n / 16 * 16 with hchunk
  have hle : chunk ≤ n := Nat.div_mul_le_self n 16
  by_cases h : n - chunk = 0
  · rw [if_pos h, hlen, List.length_take]
    omega
  · rw [if_neg h]
    have hpre : (c.enc (p.take chunk) ++ p.drop chunk).length = n := by
      rw [List.length_append, hlen, List.length_take, List.length_drop]
      omega
    rw [List.length_append, List.length_take, hlen, List.length_drop, hpre]
    omega

theorem decDataL_encDataL (c : Cipher) (hc : Lawful c) (p : List Nat)
    (hp : 32 ≤ p.length) : decDataL c (encDataL c p) = p := by
  obtain ⟨hlen, hdlen, hinv⟩ := hc
  have hq : (encDataL c p).length = p.length := encDataL_length c ⟨hlen, hdlen, hinv⟩ p hp
  simp only [decDataL, hq]
  simp only [encDataL]
  set n := p.length with hn
  set chunk := n / 16 * 16 with hchunk
  have hle : chunk ≤ n := Nat.div_mul_le_self n 16
  have hchunk32 : 32 ≤ chunk := by omega
  by_cases h : n - chunk = 0
  · rw [if_pos h, if_pos h]
    have hpc : p.take chunk = p := List.take_of_length_le (by omega)
    rw [hpc, hinv]
  · rw [if_neg h, if_neg h]
    -- names: A = cipher chunk, pre = A ++ tail, the encrypted region is
    -- pre.take (n-32) ++ enc (pre.drop (n-32))
    set A := c.enc (p.take chunk) with hA
    have hAlen : A.length = chunk := by
      rw [hA, hlen, List.length_take]
      omega
    set pre := A ++ p.drop chunk with hpre
    have hprelen : pre.length = n := by
      simp [hpre, hAlen, List.length_drop]
      omega
    set q := pre.take (n - 32) ++ c.enc (pre.drop (n - 32)) with hqdef
    have htklen : (pre.take (n - 32)).length = n - 32 := by
      rw [List.length_take]
      omega
    have hdrlen : (pre.drop (n - 32)).length = 32 := by
      rw [List.length_drop]
      omega
    -- recover the window
    have hqdrop : q.drop (n - 32) = c.enc (pre.drop (n - 32)) := by
      rw [hqdef, List.drop_left' htklen]
    have hqtake : q.take (n - 32) = pre.take (n - 32) := by
      rw [hqdef, List.take_left' htklen]
    rw [hqdrop, hqtake, hinv, List.take_append_drop]
    -- now the temp buffer equals pre; split at chunk
    have hpretake : pre.take chunk = A := List.take_left' hAlen
    have hpredrop : pre.drop chunk = p.drop chunk := List.drop_left' hAlen
    rw [hpretake, hpredrop, hA, hinv, List.take_append_drop]

theorem enc_extract_len (c : Cipher) (hlen : ∀ l, (c.enc l).length = l.length)
    (b : Buf) (off n : Nat) : (c.enc (extract b off n)).length = n := by
  rw [hlen, extract_length]

theorem encDataStage_spec (c : Cipher) (hc : Lawful c) (DHS n : Nat)
    (src dst0 : Buf) (hn : 32 ≤ n) :
    encDataStage c DHS n src dst0 =
      store dst0 DHS (encDataL c (extract src FIL_PAGE_DATA n)) := by
  obtain ⟨hlen, hdlen, hinv⟩ := hc
  have hqlen : (extract src FIL_PAGE_DATA n).length = n := extract_length _ _ _
  simp only [encDataStage, encDataL, MY_AES_BLOCK_SIZE, hqlen]
  set q := extract src FIL_PAGE_DATA n with hq
  set chunk := n / 16 * 16 with hchunk
  have hle : chunk ≤ n := Nat.div_mul_le_self n 16
  have htk : q.take chunk = extract src FIL_PAGE_DATA chunk := by
    rw [hq, extract_take _ _ _ _ hle]
  have hdr : q.drop chunk = extract src (FIL_PAGE_DATA + chunk) (n - chunk) := by
    rw [hq, extract_drop _ _ _ _ hle]
  by_cases h : n - chunk = 0
  · rw [if_pos h, if_pos h]
    have hcn : chunk = n := by omega
    rw [htk, hcn]
  · rw [if_neg h, if_neg h]
    have hAlen : (c.enc (extract src FIL_PAGE_DATA chunk)).length = chunk :=
      enc_extract_len c hlen src FIL_PAGE_DATA chunk
    have hstep1 :
        store (store dst0 DHS (c.enc (extract src FIL_PAGE_DATA chunk)))
            (DHS + chunk) (extract src (FIL_PAGE_DATA + chunk) (n - chunk)) =
          store dst0 DHS
            (c.enc (extract src FIL_PAGE_DATA chunk) ++
              extract src (FIL_PAGE_DATA + chunk) (n - chunk)) := by
      have := store_store_append dst0 DHS
        (c.enc (extract src FIL_PAGE_DATA chunk))
        (extract src (FIL_PAGE_DATA + chunk) (n - chunk))
      rw [hAlen] at this
      exact this
    rw [hstep1]
    set pre := c.enc (extract src FIL_PAGE_DATA chunk) ++
      extract src (FIL_PAGE_DATA + chunk) (n - chunk) with hpre
    have hprelen : pre.length = n := by
      rw [hpre, List.length_append, hAlen, extract_length]
      omega
    have hwin : extract (store dst0 DHS pre) (DHS + n - 32) 32 =
        pre.drop (n - 32) := by
      have h1 : extract (store dst0 DHS pre) DHS n = pre := by
        have := extract_store_eq dst0 DHS pre
        rw [hprelen] at this
        exact this
      have h2 := extract_drop (store dst0 DHS pre) DHS n (n - 32) (by omega)
      rw [h1] at h2
      have h5 : DHS + (n - 32) = DHS + n - 32 := by omega
      have h6 : n - (n - 32) = 32 := by omega
      rw [h5, h6] at h2
      exact h2.symm
    rw [hwin]
    have hover := store_store_overwrite dst0 DHS (n - 32) pre
      (c.enc (pre.drop (n - 32)))
      (by rw [hlen, List.length_drop, hprelen]; omega)
    have harith : DHS + (n - 32) = DHS + n - 32 := by omega
    rw [harith] at hover
    rw [hover, htk, hdr]

theorem decDataStage_spec (c : Cipher) (hc : Lawful c) (HS wbase n : Nat)
    (b b1 : Buf) (hn : 32 ≤ n) :
    decDataStage c HS wbase n b b1 =
      store b1 wbase (decDataL c (extract b HS n)) := by
  obtain ⟨hlen, hdlen, hinv⟩ := hc
  have hqlen : (extract b HS n).length = n := extract_length _ _ _
  simp only [decDataStage, decScratch, decDataL, MY_AES_BLOCK_SIZE, hqlen]
  set q := extract b HS n with hq
  set mainLen := n / 16 * 16 with hmain
  have hle : mainLen ≤ n := Nat.div_mul_le_self n 16
  have htk : extract b HS (n - 32) = q.take (n - 32) := by
    rw [hq, ← extract_take _ _ _ _ (by omega : n - 32 ≤ n)]
  have hdr : extract b (HS + n - 32) 32 = q.drop (n - 32) := by
    have h2 := extract_drop b HS n (n - 32) (by omega)
    have h5 : HS + (n - 32) = HS + n - 32 := by omega
    have h6 : n - (n - 32) = 32 := by omega
    rw [h5, h6] at h2
    exact h2.symm
  by_cases h : n - mainLen = 0
  · rw [if_neg (by omega : ¬(n - mainLen ≠ 0)), if_pos h]
    have hTlen : q.length = n := hqlen
    have hXlen : (c.dec (q.take mainLen)).length = mainLen := by
      rw [hdlen, List.length_take]
      omega
    have := store_store_append b1 wbase (c.dec (q.take mainLen)) (q.drop mainLen)
    rw [hXlen] at this
    rw [this]
    have hmn : mainLen = n := by omega
    rw [hmn, List.take_of_length_le (by omega), List.drop_of_length_le (by omega),
      List.append_nil]
  · rw [if_pos h, if_neg h, htk, hdr]
    set T := q.take (n - 32) ++ c.dec (q.drop (n - 32)) with hT
    have hTlen : T.length = n := by
      rw [hT, List.length_append, List.length_take, hdlen, List.length_drop]
      omega
    have hXlen : (c.dec (T.take mainLen)).length = mainLen := by
      rw [hdlen, List.length_take, hTlen]
      omega
    have := store_store_append b1 wbase (c.dec (T.take mainLen)) (T.drop mainLen)
    rw [hXlen] at this
    rw [this]

theorem encrypt_low_shape_nc (c : Cipher) (ctx : Ctx) (zip : Bool) (src : Buf)
    (L : Nat) (d0 : Buf)
    (hpt : pageTypeOf src ≠ FIL_PAGE_COMPRESSED) :
    encrypt_low c ctx zip src L d0 =
      { src :=
          if ctx.mtype = EType.KEYRING then
            w4 src FIL_PAGE_ENCRYPTION_KEY_VERSION ctx.keyVersion
          else src,
        dst :=
          (let d2 := encDataStage c FIL_PAGE_DATA
              (encDataLenOf ctx.mtype zip src L) src d0
           let d3 := store d2 0 (extract src 0 FIL_PAGE_DATA)
           let d4 :=
             if pageTypeOf src = FIL_PAGE_RTREE then
               w2 d3 FIL_PAGE_TYPE FIL_PAGE_ENCRYPTED_RTREE
             else
               w2 (w2 d3 FIL_PAGE_TYPE FIL_PAGE_ENCRYPTED)
                 FIL_PAGE_ORIGINAL_TYPE_V1 (pageTypeOf src)
           if ctx.mtype = EType.KEYRING then
             w4 d4 FIL_PAGE_ENCRYPTION_KEY_VERSION ctx.keyVersion
           else d4),
        dstLen := L } := by
  simp only [encrypt_low, encDstHeaderSize, srcEncLenOf, encDataLenOf, hpt,
    if_false, and_false, false_and, if_neg (lt_irrefl L), ite_false]
  by_cases hk : ctx.mtype = EType.KEYRING
  · simp [hk, hpt]
  · simp [hk, hpt]

theorem decrypt_shape_nc (c : Cipher) (ctx : Ctx) (zip : Bool) (bs : Nat)
    (b : Buf) (L0 : Nat) (henc : is_encrypted_page b)
    (hm : ctx.mtype ≠ EType.NONE)
    (hpt : pageTypeOf b ≠ FIL_PAGE_COMPRESSED_AND_ENCRYPTED) :
    decrypt c ctx zip bs b L0 =
      some
        (let b3 := decDataStage c FIL_PAGE_DATA FIL_PAGE_DATA
            (decDataLenOf ctx.mtype zip (pageTypeOf b) L0) b b
         let b4 :=
           if ctx.mtype = EType.KEYRING ∧ ¬zip then
             store b3 (L0 - FIL_PAGE_END_LSN_OLD_CHKSUM + 4)
               (extract b3 (FIL_PAGE_LSN + 4) 4)
           else b3
         let b5 :=
           if pageTypeOf b = FIL_PAGE_ENCRYPTED then
             w2 b4 FIL_PAGE_TYPE (r2 b FIL_PAGE_ORIGINAL_TYPE_V1)
           else w2 b4 FIL_PAGE_TYPE FIL_PAGE_RTREE
         if r2 b FIL_PAGE_ORIGINAL_TYPE_V1 ≠ FIL_PAGE_TYPE_ALLOCATED then
           w2 b5 FIL_PAGE_ORIGINAL_TYPE_V1 FIL_PAGE_ENCRYPTED
         else b5) := by
  have hrt : pageTypeOf b = FIL_PAGE_ENCRYPTED ∨
      pageTypeOf b = FIL_PAGE_ENCRYPTED_RTREE := by
    rcases henc with h | h | h
    · exact Or.inl h
    · exact absurd h hpt
    · exact Or.inr h
  simp only [decrypt, decHeaderSize, hpt, if_false, and_false, false_and,
    ite_false]
  rw [if_neg (by simp [hm, henc]), if_neg (by simp [hm, henc])]
  rcases hrt with h15 | h17
  · simp [h15, hm, hpt, ite_not, FIL_PAGE_ENCRYPTED,
      FIL_PAGE_COMPRESSED_AND_ENCRYPTED, FIL_PAGE_ENCRYPTED_RTREE]
  · have hne : pageTypeOf b ≠ FIL_PAGE_ENCRYPTED := by
      rw [h17]
      decide
    simp [h17, hne, hm, hpt, ite_not, FIL_PAGE_ENCRYPTED,
      FIL_PAGE_COMPRESSED_AND_ENCRYPTED, FIL_PAGE_ENCRYPTED_RTREE]

theorem byte2_length (v : Nat) : (byte2 v).length = 2 := by
  simp [byte2]

theorem byte4_length (v : Nat) : (byte4 v).length = 4 := by
  simp [byte4]

theorem store_apply_in' (b : Buf) (off : Nat) (l : List Nat) (i : Nat)
    (h1 : off ≤ i) (h2 : i < off + l.length) :
    store b off l i = l.getD (i - off) 0 := by
  simp only [store]
  rw [if_pos ⟨h1, h2⟩]

theorem w2_out (b : Buf) (off v i : Nat) (h1 : i ≠ off) (h2 : i ≠ off + 1) :
    w2 b off v i = b i := by
  apply store_apply_out
  rw [byte2_length]
  omega

theorem w4_out (b : Buf) (off v i : Nat) (h : i < off ∨ off + 4 ≤ i) :
    w4 b off v i = b i := by
  apply store_apply_out
  rw [byte4_length]
  omega

theorem w2_apply0 (b : Buf) (off v : Nat) : w2 b off v off = v / 256 % 256 := by
  rw [w2, store_apply_in' _ _ _ _ (le_refl off) (by rw [byte2_length]; omega)]
  simp [byte2]

theorem w2_apply1 (b : Buf) (off v : Nat) : w2 b off v (off + 1) = v % 256 := by
  rw [w2, store_apply_in' _ _ _ _ (by omega) (by rw [byte2_length]; omega)]
  simp [byte2]

theorem r2_w2 (b : Buf) (off v : Nat) : r2 (w2 b off v) off = v % 65536 := by
  rw [r2, w2_apply0, w2_apply1]
  omega

theorem r2_lt (b : Buf) (off : Nat) : r2 b off < 65536 := by
  have h1 : b off % 256 < 256 := Nat.mod_lt _ (by omega)
  have h2 : b (off + 1) % 256 < 256 := Nat.mod_lt _ (by omega)
  rw [r2]
  omega

theorem r2_congr (b b' : Buf) (off : Nat) (h0 : b off = b' off)
    (h1 : b (off + 1) = b' (off + 1)) : r2 b off = r2 b' off := by
  rw [r2, r2, h0, h1]

theorem w4_apply (b : Buf) (off v j : Nat) (hj : j < 4) :
    w4 b off v (off + j) = (byte4 v).getD j 0 := by
  rw [w4, store_apply_in' _ _ _ _ (by omega) (by rw [byte4_length]; omega)]
  congr 1
  omega

theorem r4_w4 (b : Buf) (off v : Nat) : r4 (w4 b off v) off = v % 4294967296 := by
  have h0 := w4_apply b off v 0 (by omega)
  have h1 := w4_apply b off v 1 (by omega)
  have h2 := w4_apply b off v 2 (by omega)
  have h3 := w4_apply b off v 3 (by omega)
  rw [Nat.add_zero] at h0
  rw [r4, h0, h1, h2, h3]
  simp only [byte4, List.getD_cons_zero, List.getD_cons_succ]
  omega

theorem encPage_dst_header (c : Cipher) (ctx : Ctx) (zip : Bool) (src : Buf)
    (L : Nat) (d0 : Buf) (hpt : pageTypeOf src ≠ FIL_PAGE_COMPRESSED) (i : Nat)
    (hi : i < FIL_PAGE_DATA) (h24 : i ≠ FIL_PAGE_TYPE)
    (h25 : i ≠ FIL_PAGE_TYPE + 1) (h28 : i ≠ FIL_PAGE_ORIGINAL_TYPE_V1)
    (h29 : i ≠ FIL_PAGE_ORIGINAL_TYPE_V1 + 1)
    (hkv : ctx.mtype = EType.KEYRING →
      i < FIL_PAGE_ENCRYPTION_KEY_VERSION ∨
        FIL_PAGE_ENCRYPTION_KEY_VERSION + 4 ≤ i) :
    (encrypt_low c ctx zip src L d0).dst i = src i := by
  rw [encrypt_low_shape_nc c ctx zip src L d0 hpt]
  dsimp only
  have hbase : store (encDataStage c FIL_PAGE_DATA
      (encDataLenOf ctx.mtype zip src L) src d0) 0
      (extract src 0 FIL_PAGE_DATA) i = src i := by
    rw [store_apply_in' _ _ _ _ (by omega) (by rw [extract_length]; omega)]
    have := extract_getD src 0 FIL_PAGE_DATA i hi
    simpa using this
  by_cases hrt : pageTypeOf src = FIL_PAGE_RTREE
  · rw [if_pos hrt]
    by_cases hk : ctx.mtype = EType.KEYRING
    · rw [if_pos hk, w4_out _ _ _ _ (by rcases hkv hk with h | h <;> omega)]
      rw [w2_out _ _ _ _ h24 h25]
      exact hbase
    · rw [if_neg hk, w2_out _ _ _ _ h24 h25]
      exact hbase
  · rw [if_neg hrt]
    by_cases hk : ctx.mtype = EType.KEYRING
    · rw [if_pos hk, w4_out _ _ _ _ (by rcases hkv hk with h | h <;> omega)]
      rw [w2_out _ _ _ _ h28 h29, w2_out _ _ _ _ h24 h25]
      exact hbase
    · rw [if_neg hk, w2_out _ _ _ _ h28 h29, w2_out _ _ _ _ h24 h25]
      exact hbase

theorem r2_w4_ne (b : Buf) (off off' v : Nat)
    (h : off + 2 ≤ off' ∨ off' + 4 ≤ off) : r2 (w4 b off' v) off = r2 b off := by
  apply r2_congr
  · exact w4_out _ _ _ _ (by omega)
  · exact w4_out _ _ _ _ (by omega)

theorem r2_w2_ne (b : Buf) (off off' v : Nat)
    (h : off + 2 ≤ off' ∨ off' + 2 ≤ off) : r2 (w2 b off' v) off = r2 b off := by
  apply r2_congr
  · exact w2_out _ _ _ _ (by omega) (by omega)
  · exact w2_out _ _ _ _ (by omega) (by omega)

theorem r2_store_ne (b : Buf) (off off' : Nat) (l : List Nat)
    (h : off + 2 ≤ off' ∨ off' + l.length ≤ off) :
    r2 (store b off' l) off = r2 b off := by
  apply r2_congr
  · exact store_apply_out _ _ _ _ (by omega)
  · exact store_apply_out _ _ _ _ (by omega)

theorem encPage_dst_pageType (c : Cipher) (ctx : Ctx) (zip : Bool) (src : Buf)
    (L : Nat) (d0 : Buf) (hpt : pageTypeOf src ≠ FIL_PAGE_COMPRESSED) :
    pageTypeOf ((encrypt_low c ctx zip src L d0).dst) =
      if pageTypeOf src = FIL_PAGE_RTREE then FIL_PAGE_ENCRYPTED_RTREE
      else FIL_PAGE_ENCRYPTED := by
  rw [encrypt_low_shape_nc c ctx zip src L d0 hpt]
  dsimp only
  simp only [pageTypeOf]
  by_cases hrt : r2 src FIL_PAGE_TYPE = FIL_PAGE_RTREE
  · rw [if_pos hrt, if_pos hrt]
    by_cases hk : ctx.mtype = EType.KEYRING
    · rw [if_pos hk]
      rw [r2_w4_ne _ _ _ _ (by
        simp only [FIL_PAGE_TYPE, FIL_PAGE_ENCRYPTION_KEY_VERSION]
        omega)]
      rw [r2_w2]
      decide
    · rw [if_neg hk, r2_w2]
      decide
  · rw [if_neg hrt, if_neg hrt]
    have hstep : r2 (w2 (w2 (store (encDataStage c FIL_PAGE_DATA
        (encDataLenOf ctx.mtype zip src L) src d0) 0
        (extract src 0 FIL_PAGE_DATA)) FIL_PAGE_TYPE FIL_PAGE_ENCRYPTED)
        FIL_PAGE_ORIGINAL_TYPE_V1 (r2 src FIL_PAGE_TYPE)) FIL_PAGE_TYPE =
        FIL_PAGE_ENCRYPTED := by
      rw [r2_w2_ne _ _ _ _ (by
        simp only [FIL_PAGE_TYPE, FIL_PAGE_ORIGINAL_TYPE_V1]
        omega)]
      rw [r2_w2]
      decide
    by_cases hk : ctx.mtype = EType.KEYRING
    · rw [if_pos hk]
      rw [r2_w4_ne _ _ _ _ (by
        simp only [FIL_PAGE_TYPE, FIL_PAGE_ENCRYPTION_KEY_VERSION]
        omega)]
      exact hstep
    · rw [if_neg hk]
      exact hstep

theorem encPage_dst_orig (c : Cipher) (ctx : Ctx) (zip : Bool) (src : Buf)
    (L : Nat) (d0 : Buf) (hpt : pageTypeOf src ≠ FIL_PAGE_COMPRESSED)
    (hrt : pageTypeOf src ≠ FIL_PAGE_RTREE) :
    r2 ((encrypt_low c ctx zip src L d0).dst) FIL_PAGE_ORIGINAL_TYPE_V1 =
      pageTypeOf src := by
  rw [encrypt_low_shape_nc c ctx zip src L d0 hpt]
  dsimp only
  simp only [pageTypeOf] at hrt ⊢
  rw [if_neg hrt]
  have hval : r2 (w2 (w2 (store (encDataStage c FIL_PAGE_DATA
      (encDataLenOf ctx.mtype zip src L) src d0) 0
      (extract src 0 FIL_PAGE_DATA)) FIL_PAGE_TYPE FIL_PAGE_ENCRYPTED)
      FIL_PAGE_ORIGINAL_TYPE_V1 (r2 src FIL_PAGE_TYPE))
      FIL_PAGE_ORIGINAL_TYPE_V1 = r2 src FIL_PAGE_TYPE := by
    rw [r2_w2]
    exact Nat.mod_eq_of_lt (r2_lt src FIL_PAGE_TYPE)
  by_cases hk : ctx.mtype = EType.KEYRING
  · rw [if_pos hk]
    rw [r2_w4_ne _ _ _ _ (by
      simp only [FIL_PAGE_ORIGINAL_TYPE_V1, FIL_PAGE_ENCRYPTION_KEY_VERSION]
      omega)]
    exact hval
  · rw [if_neg hk]
    exact hval

theorem encPage_dst_data (c : Cipher) (hc : Lawful c) (ctx : Ctx) (zip : Bool)
    (src : Buf) (L : Nat) (d0 : Buf)
    (hpt : pageTypeOf src ≠ FIL_PAGE_COMPRESSED)
    (hn : 32 ≤ encDataLenOf ctx.mtype zip src L) :
    extract ((encrypt_low c ctx zip src L d0).dst) FIL_PAGE_DATA
        (encDataLenOf ctx.mtype zip src L) =
      encDataL c (extract src FIL_PAGE_DATA (encDataLenOf ctx.mtype zip src L)) := by
  rw [encrypt_low_shape_nc c ctx zip src L d0 hpt]
  dsimp only
  rw [encDataStage_spec c hc _ _ _ _ hn]
  simp only [w2, w4]
  set n := encDataLenOf ctx.mtype zip src L with hndef
  set Q := encDataL c (extract src FIL_PAGE_DATA n) with hQ
  have hQlen : Q.length = n := by
    rw [hQ, encDataL_length c hc _ (by rw [extract_length]; exact hn),
      extract_length]
  have hbase : extract (store (store d0 FIL_PAGE_DATA Q) 0
      (extract src 0 FIL_PAGE_DATA)) FIL_PAGE_DATA n = Q := by
    rw [extract_store_disjoint _ _ _ _ _ (by
      right
      rw [extract_length]
      omega)]
    have h2 := extract_store_eq d0 FIL_PAGE_DATA Q
    rw [hQlen] at h2
    exact h2
  have hd2 : ∀ (bb : Buf) (v : Nat), extract (store bb FIL_PAGE_TYPE (byte2 v))
      FIL_PAGE_DATA n = extract bb FIL_PAGE_DATA n := by
    intro bb v
    exact extract_store_disjoint _ _ _ _ _ (by
      right
      rw [byte2_length]
      simp only [FIL_PAGE_TYPE, FIL_PAGE_DATA]
      omega)
  have hd28 : ∀ (bb : Buf) (v : Nat),
      extract (store bb FIL_PAGE_ORIGINAL_TYPE_V1 (byte2 v))
        FIL_PAGE_DATA n = extract bb FIL_PAGE_DATA n := by
    intro bb v
    exact extract_store_disjoint _ _ _ _ _ (by
      right
      rw [byte2_length]
      simp only [FIL_PAGE_ORIGINAL_TYPE_V1, FIL_PAGE_DATA]
      omega)
  have hd30 : ∀ (bb : Buf) (v : Nat),
      extract (store bb FIL_PAGE_ENCRYPTION_KEY_VERSION (byte4 v))
        FIL_PAGE_DATA n = extract bb FIL_PAGE_DATA n := by
    intro bb v
    exact extract_store_disjoint _ _ _ _ _ (by
      right
      rw [byte4_length]
      simp only [FIL_PAGE_ENCRYPTION_KEY_VERSION, FIL_PAGE_DATA]
      omega)
  by_cases hrt : pageTypeOf src = FIL_PAGE_RTREE
  · rw [if_pos hrt]
    by_cases hk : ctx.mtype = EType.KEYRING
    · rw [if_pos hk, hd30, hd2]
      exact hbase
    · rw [if_neg hk, hd2]
      exact hbase
  · rw [if_neg hrt]
    by_cases hk : ctx.mtype = EType.KEYRING
    · rw [if_pos hk, hd30, hd28, hd2]
      exact hbase
    · rw [if_neg hk, hd28, hd2]
      exact hbase

theorem encPage_dst_high (c : Cipher) (hc : Lawful c) (ctx : Ctx) (zip : Bool)
    (src : Buf) (L : Nat) (d0 : Buf)
    (hpt : pageTypeOf src ≠ FIL_PAGE_COMPRESSED)
    (hn : 32 ≤ encDataLenOf ctx.mtype zip src L) (i : Nat)
    (hi : FIL_PAGE_DATA + encDataLenOf ctx.mtype zip src L ≤ i) :
    (encrypt_low c ctx zip src L d0).dst i = d0 i := by
  rw [encrypt_low_shape_nc c ctx zip src L d0 hpt]
  dsimp only
  rw [encDataStage_spec c hc _ _ _ _ hn]
  simp only [w2, w4]
  set n := encDataLenOf ctx.mtype zip src L with hndef
  set Q := encDataL c (extract src FIL_PAGE_DATA n) with hQ
  have hQlen : Q.length = n := by
    rw [hQ, encDataL_length c hc _ (by rw [extract_length]; exact hn),
      extract_length]
  have h38 : FIL_PAGE_DATA + n ≤ i := hi
  have hbase : store (store d0 FIL_PAGE_DATA Q) 0
      (extract src 0 FIL_PAGE_DATA) i = d0 i := by
    rw [store_apply_out _ _ _ _ (by
      right
      rw [extract_length]
      omega)]
    rw [store_apply_out _ _ _ _ (by
      right
      rw [hQlen]
      omega)]
  have hs2 : ∀ (bb : Buf) (v : Nat), store bb FIL_PAGE_TYPE (byte2 v) i = bb i := by
    intro bb v
    exact store_apply_out _ _ _ _ (by
      right
      rw [byte2_length]
      simp only [FIL_PAGE_TYPE, FIL_PAGE_DATA] at h38 ⊢
      omega)
  have hs28 : ∀ (bb : Buf) (v : Nat),
      store bb FIL_PAGE_ORIGINAL_TYPE_V1 (byte2 v) i = bb i := by
    intro bb v
    exact store_apply_out _ _ _ _ (by
      right
      rw [byte2_length]
      simp only [FIL_PAGE_ORIGINAL_TYPE_V1, FIL_PAGE_DATA] at h38 ⊢
      omega)
  have hs30 : ∀ (bb : Buf) (v : Nat),
      store bb FIL_PAGE_ENCRYPTION_KEY_VERSION (byte4 v) i = bb i := by
    intro bb v
    exact store_apply_out _ _ _ _ (by
      right
      rw [byte4_length]
      simp only [FIL_PAGE_ENCRYPTION_KEY_VERSION, FIL_PAGE_DATA] at h38 ⊢
      omega)
  by_cases hrt : pageTypeOf src = FIL_PAGE_RTREE
  · rw [if_pos hrt]
    by_cases hk : ctx.mtype = EType.KEYRING
    · rw [if_pos hk, hs30, hs2]
      exact hbase
    · rw [if_neg hk, hs2]
      exact hbase
  · rw [if_neg hrt]
    by_cases hk : ctx.mtype = EType.KEYRING
    · rw [if_pos hk, hs30, hs28, hs2]
      exact hbase
    · rw [if_neg hk, hs28, hs2]
      exact hbase

theorem encPage_dst_header_rt (c : Cipher) (ctx : Ctx) (zip : Bool) (src : Buf)
    (L : Nat) (d0 : Buf) (hpt : pageTypeOf src ≠ FIL_PAGE_COMPRESSED)
    (hrt : pageTypeOf src = FIL_PAGE_RTREE) (i : Nat)
    (hi : i < FIL_PAGE_DATA) (h24 : i ≠ FIL_PAGE_TYPE)
    (h25 : i ≠ FIL_PAGE_TYPE + 1)
    (hkv : ctx.mtype = EType.KEYRING →
      i < FIL_PAGE_ENCRYPTION_KEY_VERSION ∨
        FIL_PAGE_ENCRYPTION_KEY_VERSION + 4 ≤ i) :
    (encrypt_low c ctx zip src L d0).dst i = src i := by
  rw [encrypt_low_shape_nc c ctx zip src L d0 hpt]
  dsimp only
  have hbase : store (encDataStage c FIL_PAGE_DATA
      (encDataLenOf ctx.mtype zip src L) src d0) 0
      (extract src 0 FIL_PAGE_DATA) i = src i := by
    rw [store_apply_in' _ _ _ _ (by omega) (by rw [extract_length]; omega)]
    have := extract_getD src 0 FIL_PAGE_DATA i hi
    simpa using this
  rw [if_pos hrt]
  by_cases hk : ctx.mtype = EType.KEYRING
  · rw [if_pos hk, w4_out _ _ _ _ (by rcases hkv hk with h | h <;> omega)]
    rw [w2_out _ _ _ _ h24 h25]
    exact hbase
  · rw [if_neg hk, w2_out _ _ _ _ h24 h25]
    exact hbase

/-- C1 (amended): decrypting the encryption of a non-compressed
plaintext page — excluding keyring-mode R-tree pages, which do not
round-trip at all because encrypt uses
`data_len = src_enc_len - FIL_PAGE_DATA - 4` for every non-compressed
keyring page (lines 1164-1168) while decrypt subtracts the 4 bytes
only for `FIL_PAGE_ENCRYPTED` (lines 1627-1630; see the
counterexample's second part) — restores the page byte for byte,
EXCEPT at the `FIL_PAGE_ORIGINAL_TYPE_V1` word, which decrypt leaves
as `FIL_PAGE_ENCRYPTED` (lines 1739-1742) instead of the source's
bytes, and, in keyring mode, except at the
`FIL_PAGE_ENCRYPTION_KEY_VERSION` field (which holds the key version)
and the final 4 bytes, which are rebuilt from the low half of the
header LSN (lines 1700-1707) rather than copied through; every other
byte round-trips. -/
theorem C1_round_trip (c : Cipher) (ctx : Ctx) (src : Buf) (L : Nat) (d0 : Buf)
    (bs : Nat) (hc : Lawful c)
    (hmode : ctx.mtype = EType.AES ∨ ctx.mtype = EType.KEYRING)
    (hbytes : ∀ i, src i < 256)
    (hpt14 : pageTypeOf src ≠ FIL_PAGE_COMPRESSED)
    (henc : ¬is_encrypted_page src)
    (hkr : ctx.mtype = EType.KEYRING → pageTypeOf src ≠ FIL_PAGE_RTREE)
    (hL : 74 ≤ L) :
    ∀ b', decrypt c ctx false bs ((encrypt_low c ctx false src L d0).dst) L =
        some b' →
      (∀ i, i < L → i ≠ FIL_PAGE_ORIGINAL_TYPE_V1 →
        i ≠ FIL_PAGE_ORIGINAL_TYPE_V1 + 1 →
        (ctx.mtype = EType.KEYRING →
          (i < FIL_PAGE_ENCRYPTION_KEY_VERSION ∨
            FIL_PAGE_ENCRYPTION_KEY_VERSION + 4 ≤ i) ∧ i + 4 < L) →
        b' i = src i) ∧
      (ctx.mtype = EType.KEYRING → ∀ j, j < 4 →
        b' (L - 4 + j) = src (FIL_PAGE_LSN + 4 + j)) := by
  intro b' hb'
  have hm_ne : ctx.mtype ≠ EType.NONE := by
    rcases hmode with h | h <;> simp [h]
  have hn_val : encDataLenOf ctx.mtype false src L =
      if ctx.mtype = EType.KEYRING then L - 42 else L - 38 := by
    by_cases hk : ctx.mtype = EType.KEYRING
    · simp [encDataLenOf, srcEncLenOf, hpt14, hk, FIL_PAGE_DATA]
      omega
    · simp [encDataLenOf, srcEncLenOf, hpt14, hk, FIL_PAGE_DATA]
  have hn32 : 32 ≤ encDataLenOf ctx.mtype false src L := by
    rw [hn_val]
    split <;> omega
  have hEtype := encPage_dst_pageType c ctx false src L d0 hpt14
  have hEenc : is_encrypted_page ((encrypt_low c ctx false src L d0).dst) := by
    unfold is_encrypted_page
    rw [hEtype]
    by_cases hrt : pageTypeOf src = FIL_PAGE_RTREE
    · rw [if_pos hrt]
      right; right; rfl
    · rw [if_neg hrt]
      left; rfl
  have hE16 : pageTypeOf ((encrypt_low c ctx false src L d0).dst) ≠
      FIL_PAGE_COMPRESSED_AND_ENCRYPTED := by
    rw [hEtype]
    by_cases hrt : pageTypeOf src = FIL_PAGE_RTREE
    · rw [if_pos hrt]
      decide
    · rw [if_neg hrt]
      decide
  have hdecn : decDataLenOf ctx.mtype false
      (pageTypeOf ((encrypt_low c ctx false src L d0).dst)) L =
      encDataLenOf ctx.mtype false src L := by
    rw [hEtype, hn_val]
    rcases hmode with hA | hK
    · by_cases hrt : pageTypeOf src = FIL_PAGE_RTREE
      · rw [if_pos hrt]
        simp [decDataLenOf, decHeaderSize, hA, FIL_PAGE_ENCRYPTED,
          FIL_PAGE_ENCRYPTED_RTREE, FIL_PAGE_COMPRESSED_AND_ENCRYPTED,
          FIL_PAGE_DATA]
      · rw [if_neg hrt]
        simp [decDataLenOf, decHeaderSize, hA, FIL_PAGE_ENCRYPTED,
          FIL_PAGE_ENCRYPTED_RTREE, FIL_PAGE_COMPRESSED_AND_ENCRYPTED,
          FIL_PAGE_DATA]
    · rw [if_neg (hkr hK)]
      simp [decDataLenOf, decHeaderSize, hK, FIL_PAGE_ENCRYPTED,
        FIL_PAGE_ENCRYPTED_RTREE, FIL_PAGE_COMPRESSED_AND_ENCRYPTED,
        FIL_PAGE_DATA]
      omega
  have hb3 : decDataStage c FIL_PAGE_DATA FIL_PAGE_DATA
      (encDataLenOf ctx.mtype false src L)
      ((encrypt_low c ctx false src L d0).dst)
      ((encrypt_low c ctx false src L d0).dst) =
      store ((encrypt_low c ctx false src L d0).dst) FIL_PAGE_DATA
        (extract src FIL_PAGE_DATA (encDataLenOf ctx.mtype false src L)) := by
    rw [decDataStage_spec c hc _ _ _ _ _ hn32]
    rw [encPage_dst_data c hc ctx false src L d0 hpt14 hn32]
    rw [decDataL_encDataL c hc _ (by rw [extract_length]; exact hn32)]
  have hL4 : L - FIL_PAGE_END_LSN_OLD_CHKSUM + 4 = L - 4 := by
    simp only [FIL_PAGE_END_LSN_OLD_CHKSUM]
    omega
  rw [decrypt_shape_nc c ctx false bs _ L hEenc hm_ne hE16] at hb'
  simp only [hdecn, hb3, hL4] at hb'
  have hG := Option.some.inj hb'
  have hplen : (extract src FIL_PAGE_DATA (encDataLenOf ctx.mtype false src L)).length =
      encDataLenOf ctx.mtype false src L := extract_length _ _ _
  have hB3in : ∀ j, FIL_PAGE_DATA ≤ j →
      j < FIL_PAGE_DATA + encDataLenOf ctx.mtype false src L →
      store (encrypt_low c ctx false src L d0).dst FIL_PAGE_DATA
        (extract src FIL_PAGE_DATA (encDataLenOf ctx.mtype false src L)) j =
        src j := by
    intro j h1 h2
    rw [store_apply_in' _ _ _ _ h1 (by rw [hplen]; exact h2)]
    rw [extract_getD src FIL_PAGE_DATA _ (j - FIL_PAGE_DATA) (by omega)]
    congr 1
    omega
  have h24val : pageTypeOf src / 256 % 256 = src FIL_PAGE_TYPE := by
    have h1 := hbytes FIL_PAGE_TYPE
    have h2 := hbytes (FIL_PAGE_TYPE + 1)
    simp only [pageTypeOf, r2]
    omega
  have h25val : pageTypeOf src % 256 = src (FIL_PAGE_TYPE + 1) := by
    have h2 := hbytes (FIL_PAGE_TYPE + 1)
    simp only [pageTypeOf, r2]
    omega
  constructor
  · intro i hiL hi28 hi29 hkcond
    rw [← hG]
    have h6 : ∀ bb : Buf,
        (if r2 (encrypt_low c ctx false src L d0).dst FIL_PAGE_ORIGINAL_TYPE_V1 ≠
            FIL_PAGE_TYPE_ALLOCATED then
          w2 bb FIL_PAGE_ORIGINAL_TYPE_V1 FIL_PAGE_ENCRYPTED else bb) i = bb i := by
      intro bb
      split
      · exact w2_out _ _ _ _ hi28 hi29
      · rfl
    rcases hmode with hA | hK
    · -- AES mode
      have hkne : ctx.mtype ≠ EType.KEYRING := by
        rw [hA]
        decide
      have hc4 : ¬(ctx.mtype = EType.KEYRING ∧ ¬false = true) := by
        simp [hkne]
      simp only [if_neg hc4]
      rw [h6]
      have hnA : encDataLenOf ctx.mtype false src L = L - 38 := by
        rw [hn_val, if_neg hkne]
      by_cases hrt : pageTypeOf src = FIL_PAGE_RTREE
      · -- R-tree page under AES
        have hEt : pageTypeOf (encrypt_low c ctx false src L d0).dst =
            FIL_PAGE_ENCRYPTED_RTREE := by
          rw [hEtype, if_pos hrt]
        rw [if_neg (by rw [hEt]; decide)]
        by_cases hi24 : i = FIL_PAGE_TYPE
        · subst hi24
          rw [w2_apply0, ← hrt, h24val]
        · by_cases hi25 : i = FIL_PAGE_TYPE + 1
          · subst hi25
            rw [w2_apply1, ← hrt, h25val]
          · rw [w2_out _ _ _ _ hi24 hi25]
            by_cases hi38 : i < FIL_PAGE_DATA
            · rw [store_apply_out _ _ _ _ (Or.inl hi38)]
              exact encPage_dst_header_rt c ctx false src L d0 hpt14 hrt i hi38
                hi24 hi25 (fun hk => absurd hk hkne)
            · exact hB3in i (by omega) (by rw [hnA]; simp only [FIL_PAGE_DATA]; omega)
      · -- non-R-tree page under AES
        have hEt : pageTypeOf (encrypt_low c ctx false src L d0).dst =
            FIL_PAGE_ENCRYPTED := by
          rw [hEtype, if_neg hrt]
        rw [if_pos hEt]
        have horig := encPage_dst_orig c ctx false src L d0 hpt14 hrt
        rw [horig]
        by_cases hi24 : i = FIL_PAGE_TYPE
        · subst hi24
          rw [w2_apply0, h24val]
        · by_cases hi25 : i = FIL_PAGE_TYPE + 1
          · subst hi25
            rw [w2_apply1, h25val]
          · rw [w2_out _ _ _ _ hi24 hi25]
            by_cases hi38 : i < FIL_PAGE_DATA
            · rw [store_apply_out _ _ _ _ (Or.inl hi38)]
              exact encPage_dst_header c ctx false src L d0 hpt14 i hi38
                hi24 hi25 hi28 hi29 (fun hk => absurd hk hkne)
            · exact hB3in i (by omega) (by rw [hnA]; simp only [FIL_PAGE_DATA]; omega)
    · -- KEYRING mode
      have hrt := hkr hK
      obtain ⟨hkvr, hiL4⟩ := hkcond hK
      have hc4 : ctx.mtype = EType.KEYRING ∧ ¬false = true := ⟨hK, by decide⟩
      simp only [if_pos hc4]
      rw [h6]
      have hnK : encDataLenOf ctx.mtype false src L = L - 42 := by
        rw [hn_val, if_pos hK]
      have hEt : pageTypeOf (encrypt_low c ctx false src L d0).dst =
          FIL_PAGE_ENCRYPTED := by
        rw [hEtype, if_neg hrt]
      rw [if_pos hEt]
      have horig := encPage_dst_orig c ctx false src L d0 hpt14 hrt
      rw [horig]
      have hB4out : store (store (encrypt_low c ctx false src L d0).dst
          FIL_PAGE_DATA (extract src FIL_PAGE_DATA
            (encDataLenOf ctx.mtype false src L))) (L - 4)
          (extract (store (encrypt_low c ctx false src L d0).dst FIL_PAGE_DATA
            (extract src FIL_PAGE_DATA (encDataLenOf ctx.mtype false src L)))
            (FIL_PAGE_LSN + 4) 4) i =
          store (encrypt_low c ctx false src L d0).dst FIL_PAGE_DATA
            (extract src FIL_PAGE_DATA (encDataLenOf ctx.mtype false src L)) i := by
        apply store_apply_out
        left
        omega
      by_cases hi24 : i = FIL_PAGE_TYPE
      · subst hi24
        rw [w2_apply0, h24val]
      · by_cases hi25 : i = FIL_PAGE_TYPE + 1
        · subst hi25
          rw [w2_apply1, h25val]
        · rw [w2_out _ _ _ _ hi24 hi25, hB4out]
          by_cases hi38 : i < FIL_PAGE_DATA
          · rw [store_apply_out _ _ _ _ (Or.inl hi38)]
            exact encPage_dst_header c ctx false src L d0 hpt14 i hi38
              hi24 hi25 hi28 hi29 (fun _ => hkvr)
          · exact hB3in i (by omega)
              (by rw [hnK]; simp only [FIL_PAGE_DATA]; omega)
  · intro hK j hj
    rw [← hG]
    have hc4 : ctx.mtype = EType.KEYRING ∧ ¬false = true := ⟨hK, by decide⟩
    simp only [if_pos hc4]
    have hrt := hkr hK
    have hEt : pageTypeOf (encrypt_low c ctx false src L d0).dst =
        FIL_PAGE_ENCRYPTED := by
      rw [hEtype, if_neg hrt]
    have hge : 70 ≤ L - 4 + j := by omega
    have h6 : ∀ bb : Buf,
        (if r2 (encrypt_low c ctx false src L d0).dst FIL_PAGE_ORIGINAL_TYPE_V1 ≠
            FIL_PAGE_TYPE_ALLOCATED then
          w2 bb FIL_PAGE_ORIGINAL_TYPE_V1 FIL_PAGE_ENCRYPTED else bb)
          (L - 4 + j) = bb (L - 4 + j) := by
      intro bb
      split
      · exact w2_out _ _ _ _ (by simp only [FIL_PAGE_ORIGINAL_TYPE_V1]; omega)
          (by simp only [FIL_PAGE_ORIGINAL_TYPE_V1]; omega)
      · rfl
    rw [h6, if_pos hEt]
    rw [w2_out _ _ _ _ (by simp only [FIL_PAGE_TYPE]; omega)
      (by simp only [FIL_PAGE_TYPE]; omega)]
    rw [store_apply_in' _ _ _ _ (by omega) (by rw [extract_length]; omega)]
    have hjj : L - 4 + j - (L - 4) = j := by omega
    rw [hjj, extract_getD _ _ _ j hj]
    rw [store_apply_out _ _ _ _ (Or.inl (by simp only [FIL_PAGE_LSN, FIL_PAGE_DATA]; omega))]
    exact encPage_dst_header c ctx false src L d0 hpt14 (FIL_PAGE_LSN + 4 + j)
      (by simp only [FIL_PAGE_LSN, FIL_PAGE_DATA]; omega)
      (by simp only [FIL_PAGE_LSN, FIL_PAGE_TYPE]; omega)
      (by simp only [FIL_PAGE_LSN, FIL_PAGE_TYPE]; omega)
      (by simp only [FIL_PAGE_LSN, FIL_PAGE_ORIGINAL_TYPE_V1]; omega)
      (by simp only [FIL_PAGE_LSN, FIL_PAGE_ORIGINAL_TYPE_V1]; omega)
      (fun _ => Or.inl (by simp only [FIL_PAGE_LSN, FIL_PAGE_ENCRYPTION_KEY_VERSION]; omega))

theorem encrypt_low_shape_c (c : Cipher) (ctx : Ctx) (zip : Bool) (src : Buf)
    (L : Nat) (d0 : Buf) (hpt : pageTypeOf src = FIL_PAGE_COMPRESSED) :
    encrypt_low c ctx zip src L d0 =
      { src :=
          if ctx.mtype = EType.KEYRING then
            w4 src FIL_PAGE_ENCRYPTION_KEY_VERSION ctx.keyVersion
          else src,
        dst :=
          (let d2 := encDataStage c
              (encDstHeaderSize ctx.mtype FIL_PAGE_COMPRESSED)
              (encDataLenOf ctx.mtype zip src L) src d0
           let d3 := store d2 0 (extract src 0 FIL_PAGE_DATA)
           let d4 := w2 d3 FIL_PAGE_TYPE FIL_PAGE_COMPRESSED_AND_ENCRYPTED
           let d5 :=
             if srcEncLenOf src L < L then
               store d4 (encDstHeaderSize ctx.mtype FIL_PAGE_COMPRESSED +
                   encDataLenOf ctx.mtype zip src L)
                 (List.replicate (L - encDstHeaderSize ctx.mtype
                     FIL_PAGE_COMPRESSED - encDataLenOf ctx.mtype zip src L) 0)
             else d4
           if ctx.mtype = EType.KEYRING then
             w4 (store d5 FIL_PAGE_DATA (List.replicate 4 0))
               (FIL_PAGE_DATA + 4) ctx.keyVersion
           else d5),
        dstLen := L } := by
  by_cases hk : ctx.mtype = EType.KEYRING
  · simp [encrypt_low, hpt, hk]
  · simp [encrypt_low, hpt, hk, FIL_PAGE_COMPRESSED, FIL_PAGE_RTREE]

theorem encPage_dst_pageType_c (c : Cipher) (ctx : Ctx) (zip : Bool)
    (src : Buf) (L : Nat) (d0 : Buf)
    (hpt : pageTypeOf src = FIL_PAGE_COMPRESSED) :
    pageTypeOf ((encrypt_low c ctx zip src L d0).dst) =
      FIL_PAGE_COMPRESSED_AND_ENCRYPTED := by
  rw [encrypt_low_shape_c c ctx zip src L d0 hpt]
  dsimp only
  unfold pageTypeOf
  have hmain : r2 (if srcEncLenOf src L < L then
      store (w2 (store (encDataStage c
        (encDstHeaderSize ctx.mtype FIL_PAGE_COMPRESSED)
        (encDataLenOf ctx.mtype zip src L) src d0) 0
        (extract src 0 FIL_PAGE_DATA)) FIL_PAGE_TYPE
        FIL_PAGE_COMPRESSED_AND_ENCRYPTED)
        (encDstHeaderSize ctx.mtype FIL_PAGE_COMPRESSED +
          encDataLenOf ctx.mtype zip src L)
        (List.replicate (L - encDstHeaderSize ctx.mtype FIL_PAGE_COMPRESSED -
          encDataLenOf ctx.mtype zip src L) 0)
      else w2 (store (encDataStage c
        (encDstHeaderSize ctx.mtype FIL_PAGE_COMPRESSED)
        (encDataLenOf ctx.mtype zip src L) src d0) 0
        (extract src 0 FIL_PAGE_DATA)) FIL_PAGE_TYPE
        FIL_PAGE_COMPRESSED_AND_ENCRYPTED) FIL_PAGE_TYPE =
      FIL_PAGE_COMPRESSED_AND_ENCRYPTED := by
    have hout : FIL_PAGE_TYPE + 2 ≤ encDstHeaderSize ctx.mtype
        FIL_PAGE_COMPRESSED := by
      unfold encDstHeaderSize FIL_PAGE_TYPE FIL_PAGE_DATA
      split <;> omega
    split
    · rw [r2_store_ne _ _ _ _ (Or.inl (by omega))]
      rw [r2_w2]
      decide
    · rw [r2_w2]
      decide
  by_cases hk : ctx.mtype = EType.KEYRING
  · rw [if_pos hk]
    rw [r2_w4_ne _ _ _ _ (by
      simp only [FIL_PAGE_TYPE, FIL_PAGE_DATA]
      omega)]
    rw [r2_store_ne _ _ _ _ (by
      left
      simp only [FIL_PAGE_TYPE, FIL_PAGE_DATA]
      omega)]
    exact hmain
  · rw [if_neg hk]
    exact hmain

theorem decrypt_pageType (c : Cipher) (ctx : Ctx) (zip : Bool) (bs : Nat)
    (b : Buf) (L0 : Nat) (henc : is_encrypted_page b)
    (hm : ctx.mtype ≠ EType.NONE) :
    ∀ b', decrypt c ctx zip bs b L0 = some b' →
      pageTypeOf b' =
        if pageTypeOf b = FIL_PAGE_ENCRYPTED then r2 b FIL_PAGE_ORIGINAL_TYPE_V1
        else if pageTypeOf b = FIL_PAGE_ENCRYPTED_RTREE then FIL_PAGE_RTREE
        else FIL_PAGE_COMPRESSED := by
  intro b' hb'
  by_cases hpt16 : pageTypeOf b = FIL_PAGE_COMPRESSED_AND_ENCRYPTED
  · -- compressed-and-encrypted page
    rw [if_neg (by rw [hpt16]; decide), if_neg (by rw [hpt16]; decide)]
    simp only [decrypt] at hb'
    rw [if_neg (by simp [hm, henc]), if_neg (by simp [hm, henc])] at hb'
    have hG := Option.some.inj hb'
    rw [← hG]
    rw [if_neg (by simp [hpt16])]
    rw [if_neg (by rw [hpt16]; decide), if_neg (by rw [hpt16]; decide)]
    unfold pageTypeOf
    rw [r2_w2]
    decide
  · have hrt : pageTypeOf b = FIL_PAGE_ENCRYPTED ∨
        pageTypeOf b = FIL_PAGE_ENCRYPTED_RTREE := by
      rcases henc with h | h | h
      · exact Or.inl h
      · exact absurd h hpt16
      · exact Or.inr h
    rw [decrypt_shape_nc c ctx zip bs b L0 henc hm hpt16] at hb'
    have hG := Option.some.inj hb'
    rw [← hG]
    have hb6 : ∀ bb : Buf, pageTypeOf
        (if r2 b FIL_PAGE_ORIGINAL_TYPE_V1 ≠ FIL_PAGE_TYPE_ALLOCATED then
          w2 bb FIL_PAGE_ORIGINAL_TYPE_V1 FIL_PAGE_ENCRYPTED else bb) =
        pageTypeOf bb := by
      intro bb
      unfold pageTypeOf
      split
      · exact r2_w2_ne _ _ _ _ (by
          left
          simp only [FIL_PAGE_TYPE, FIL_PAGE_ORIGINAL_TYPE_V1]
          omega)
      · rfl
    rw [hb6]
    rcases hrt with h15 | h17
    · simp only [if_pos h15]
      unfold pageTypeOf
      rw [r2_w2]
      exact Nat.mod_eq_of_lt (r2_lt b FIL_PAGE_ORIGINAL_TYPE_V1)
    · have hne15 : pageTypeOf b ≠ FIL_PAGE_ENCRYPTED := by
        rw [h17]
        decide
      simp only [if_neg hne15, if_pos h17]
      unfold pageTypeOf
      rw [r2_w2]
      decide

theorem cPage_bytes (i : Nat) : cPage i < 256 := by
  unfold cPage
  exact Nat.mod_lt _ (by omega)

/-- C2: for every encryption-info blob with a recognized magic,
`decode_encryption_info` with `decrypt_key = true` succeeds only when
the CRC32 computed over the decrypted 64-byte plaintext key‖iv equals
the stored 4-byte CRC word; when they differ (and even though the
master-key fetch succeeded) the function returns failure, so the
tablespace is treated as undecryptable (`os0enc.cc` lines 898-913). -/
theorem C2_decode_crc_gate (ext : CodecExt) (recovery : Bool) (sId : Nat)
    (sUuid : List Nat) (blob : List Nat) (v : Version)
    (hmagic : magicOf blob = some v) :
    (get_master_key_from_info ext blob v = none →
      (decode_encryption_info ext recovery sId sUuid blob true).ok = false) ∧
    (∀ r, get_master_key_from_info ext blob v = some r →
      ((decode_encryption_info ext recovery sId sUuid blob true).ok = true ↔
        rd4 blob (r.1 + KEY_LEN * 2) =
          ext.crc (ext.ecbDec r.2.1 ((blob.drop r.1).take (KEY_LEN * 2))))) := by
  constructor
  · intro hnone
    unfold decode_encryption_info
    rw [hmagic]
    simp [hnone]
  · intro r hr
    unfold decode_encryption_info
    rw [hmagic]
    simp only [if_true, hr, Option.map_some']
    by_cases hcrc : rd4 blob (r.1 + KEY_LEN * 2) =
        ext.crc (ext.ecbDec r.2.1 ((blob.drop r.1).take (KEY_LEN * 2)))
    · rw [if_neg (not_not_intro hcrc)]
      constructor
      · intro _
        exact hcrc
      · intro _
        split <;> rfl
    · rw [if_pos hcrc]
      exact iff_of_false (by simp) hcrc

theorem C2_decode_crc_gate_witness :
    (decode_encryption_info wExt false 0 [] wBlob2 true).ok = false := by
  have h := (C2_decode_crc_gate wExt false 0 [] wBlob2 Version.VERSION_3
    (by decide)).2
    (MAGIC_SIZE + 4 + SERVER_UUID_LEN, defaultMasterKeyBytes, 0,
      some (List.replicate 36 0)) (by decide)
  cases hok : (decode_encryption_info wExt false 0 [] wBlob2 true).ok with
  | false => rfl
  | true => exact absurd (h.mp hok) (by decide)

/-- C3: for every input blob whose leading magic is none of
KEY_MAGIC_V1/V2/V3, `decode_encryption_info` returns success as a no-op
(producing neither key nor iv, and leaving the process-wide state
unchanged) when recovery is in progress, and returns failure when it is
not (`os0enc.cc` lines 830-847). -/
theorem C3_unknown_magic (ext : CodecExt) (recovery : Bool) (sId : Nat)
    (sUuid : List Nat) (blob : List Nat) (decrypt_key : Bool)
    (hmagic : magicOf blob = none) :
    decode_encryption_info ext recovery sId sUuid blob decrypt_key =
      if recovery then ⟨true, none, sId, sUuid⟩
      else ⟨false, none, sId, sUuid⟩ := by
  unfold decode_encryption_info
  rw [hmagic]

theorem C3_unknown_magic_witness :
    decode_encryption_info wExt true 3 [] [9, 9, 9] false =
      ⟨true, none, 3, []⟩ := by
  rw [C3_unknown_magic wExt true 3 [] [9, 9, 9] false (by decide)]
  rfl

/-- C6: the process-wide current master key id never decreases:
`create_master_key` only increments `s_master_key_id` (on fetch
success), the lazy first-key path of `get_master_key` only advances it
from 0 to 1, and `decode_encryption_info` overwrites it with the
decoded id only when that id is strictly greater than the current one
(`os0enc.cc` lines 427-435, 505-537, 937-940). -/
theorem C6_master_key_id_monotonic :
    (∀ sId fetchOk, sId ≤ create_master_key_sid sId fetchOk) ∧
    (∀ sId fetchOk, sId ≤ get_master_key_sid sId fetchOk ∧
      get_master_key_sid sId fetchOk ≤ max sId 1) ∧
    (∀ ext recovery sId sUuid blob dk,
      sId ≤ (decode_encryption_info ext recovery sId sUuid blob dk).sId ∧
      ((decode_encryption_info ext recovery sId sUuid blob dk).sId ≠ sId →
        dk = true ∧
        sId < (decode_encryption_info ext recovery sId sUuid blob dk).sId)) := by
  refine ⟨fun sId fetchOk => ?_, fun sId fetchOk => ?_,
    fun ext recovery sId sUuid blob dk => ?_⟩
  · unfold create_master_key_sid
    split <;> omega
  · unfold get_master_key_sid
    by_cases h : sId = 0
    · subst h
      cases fetchOk <;> simp
    · rw [if_neg h]
      exact ⟨le_refl _, le_max_left _ _⟩
  · have hcases :
        (decode_encryption_info ext recovery sId sUuid blob dk).sId = sId ∨
        (dk = true ∧
          sId < (decode_encryption_info ext recovery sId sUuid blob dk).sId) := by
      unfold decode_encryption_info
      cases hmagic : magicOf blob with
      | none =>
        left
        dsimp only
        split <;> rfl
      | some v =>
        dsimp only
        cases dk with
        | false =>
          left
          simp only [Bool.false_eq_true, if_false]
          split <;> rfl
        | true =>
          simp only [if_true]
          cases hfetch : get_master_key_from_info ext blob v with
          | none =>
            left
            simp only [Option.map_none']
          | some r =>
            simp only [Option.map_some']
            by_cases hcrc : rd4 blob (r.1 + KEY_LEN * 2) =
                ext.crc (ext.ecbDec r.2.1 ((blob.drop r.1).take (KEY_LEN * 2)))
            · rw [if_neg (not_not_intro hcrc)]
              by_cases hlt : sId < r.2.2.1
              · right
                rw [if_pos ⟨trivial, hlt⟩]
                exact ⟨by trivial, hlt⟩
              · left
                rw [if_neg (fun h => hlt h.2)]
            · left
              rw [if_pos hcrc]
    rcases hcases with h | ⟨hdk, hlt⟩
    · rw [h]
      exact ⟨le_refl _, fun hne => absurd rfl hne⟩
    · exact ⟨by omega, fun _ => ⟨hdk, hlt⟩⟩

theorem C6_master_key_id_monotonic_witness :
    3 ≤ (decode_encryption_info wExt false 3 [] wBlob2 true).sId :=
  (C6_master_key_id_monotonic.2.2 wExt false 3 [] wBlob2 true).1

theorem encrypt_low_src (c : Cipher) (ctx : Ctx) (zip : Bool) (src : Buf)
    (L : Nat) (d0 : Buf) :
    (encrypt_low c ctx zip src L d0).src =
      if ctx.mtype = EType.KEYRING then
        w4 src FIL_PAGE_ENCRYPTION_KEY_VERSION ctx.keyVersion
      else src := by
  by_cases hk : ctx.mtype = EType.KEYRING
  · simp [encrypt_low, hk]
  · simp [encrypt_low, hk]

theorem encPage_dst_header_c (c : Cipher) (ctx : Ctx) (zip : Bool) (src : Buf)
    (L : Nat) (d0 : Buf) (hpt : pageTypeOf src = FIL_PAGE_COMPRESSED) (i : Nat)
    (hi : i < FIL_PAGE_DATA) (h24 : i ≠ FIL_PAGE_TYPE)
    (h25 : i ≠ FIL_PAGE_TYPE + 1) :
    (encrypt_low c ctx zip src L d0).dst i = src i := by
  rw [encrypt_low_shape_c c ctx zip src L d0 hpt]
  dsimp only
  have hDHS : FIL_PAGE_DATA ≤ encDstHeaderSize ctx.mtype FIL_PAGE_COMPRESSED := by
    unfold encDstHeaderSize FIL_PAGE_DATA
    split <;> omega
  have hbase : ∀ bb : Buf, w2 (store bb 0 (extract src 0 FIL_PAGE_DATA))
      FIL_PAGE_TYPE FIL_PAGE_COMPRESSED_AND_ENCRYPTED i = src i := by
    intro bb
    rw [w2_out _ _ _ _ h24 h25]
    rw [store_apply_in' _ _ _ _ (by omega) (by rw [extract_length]; omega)]
    have := extract_getD src 0 FIL_PAGE_DATA i hi
    simpa using this
  have hpadstep : ∀ bb : Buf,
      (if srcEncLenOf src L < L then
        store (w2 (store bb 0 (extract src 0 FIL_PAGE_DATA)) FIL_PAGE_TYPE
            FIL_PAGE_COMPRESSED_AND_ENCRYPTED)
          (encDstHeaderSize ctx.mtype FIL_PAGE_COMPRESSED +
            encDataLenOf ctx.mtype zip src L)
          (List.replicate (L - encDstHeaderSize ctx.mtype FIL_PAGE_COMPRESSED -
            encDataLenOf ctx.mtype zip src L) 0)
      else w2 (store bb 0 (extract src 0 FIL_PAGE_DATA)) FIL_PAGE_TYPE
        FIL_PAGE_COMPRESSED_AND_ENCRYPTED) i = src i := by
    intro bb
    split
    · rw [store_apply_out _ _ _ _ (by
        left
        have h1 := hDHS
        have h2 := hi
        simp only [FIL_PAGE_DATA] at h1 h2 ⊢
        omega)]
      exact hbase bb
    · exact hbase bb
  by_cases hk : ctx.mtype = EType.KEYRING
  · rw [if_pos hk]
    rw [w4_out _ _ _ _ (by
      left
      have h2 := hi
      simp only [FIL_PAGE_DATA] at h2 ⊢
      omega)]
    rw [store_apply_out _ _ _ _ (by
      left
      exact hi)]
    exact hpadstep _
  · rw [if_neg hk]
    exact hpadstep _

theorem store_high (b : Buf) (off : Nat) (l : List Nat) (i : Nat)
    (h : off + l.length ≤ i) : store b off l i = b i :=
  store_apply_out b off l i (Or.inr h)

theorem encrypt_log_block_high (c : Cipher) (hc : Lawful c) (ctx : Ctx)
    (crc : List Nat → Nat) (src d0 : Buf) (i : Nat)
    (hi : OS_FILE_LOG_BLOCK_SIZE ≤ i) :
    encrypt_log_block c ctx crc src d0 i = d0 i := by
  obtain ⟨hlen, _, _⟩ := hc
  have hi512 : 512 ≤ i := hi
  by_cases hk : ctx.mtype = EType.KEYRING
  · simp only [encrypt_log_block, log_block_set_encrypt_bit,
      log_block_set_checksum, log_block_calc_checksum_crc32, w4, hk,
      OS_FILE_LOG_BLOCK_SIZE, LOG_BLOCK_HDR_SIZE, LOG_BLOCK_TRL_SIZE,
      MY_AES_BLOCK_SIZE, if_true, eq_self_iff_true]
    norm_num
    rw [store_high _ _ _ _ (by rw [byte4_length]; omega)]
    rw [store_high _ _ _ _ (by simp; omega)]
    rw [store_high _ _ _ _ (by rw [extract_length]; omega)]
    rw [store_high _ _ _ _ (by rw [hlen, extract_length]; omega)]
    rw [store_high _ _ _ _ (by rw [extract_length]; omega)]
  · simp only [encrypt_log_block, log_block_set_encrypt_bit,
      log_block_set_checksum, log_block_calc_checksum_crc32, w4, hk,
      OS_FILE_LOG_BLOCK_SIZE, LOG_BLOCK_HDR_SIZE, LOG_BLOCK_TRL_SIZE,
      MY_AES_BLOCK_SIZE, if_false, eq_self_iff_true]
    norm_num
    rw [store_high _ _ _ _ (by simp; omega)]
    rw [store_high _ _ _ _ (by rw [hlen, extract_length]; omega)]
    rw [store_high _ _ _ _ (by rw [extract_length]; omega)]
    rw [store_high _ _ _ _ (by rw [hlen, extract_length]; omega)]
    rw [store_high _ _ _ _ (by rw [extract_length]; omega)]

theorem encrypt_log_block_keyring (c : Cipher) (ctx : Ctx)
    (crc : List Nat → Nat) (src d0 : Buf) (hk : ctx.mtype = EType.KEYRING) :
    encrypt_log_block c ctx crc src d0 =
      log_block_set_checksum (encLogBody c src d0)
        (log_block_calc_checksum_crc32 crc (encLogBody c src d0) +
          ctx.keyVersion) := by
  simp [encrypt_log_block, encLogBody, hk]

theorem log_get_set_checksum (b : Buf) (v : Nat) :
    log_block_get_checksum (log_block_set_checksum b v) = v % 4294967296 := by
  unfold log_block_get_checksum log_block_set_checksum
  exact r4_w4 b _ v

theorem log_calc_set_checksum (crc : List Nat → Nat) (b : Buf) (v : Nat) :
    log_block_calc_checksum_crc32 crc (log_block_set_checksum b v) =
      log_block_calc_checksum_crc32 crc b := by
  unfold log_block_calc_checksum_crc32 log_block_set_checksum w4
  rw [extract_store_disjoint _ _ _ _ _ (Or.inl (by decide))]

/-- C4: after a page encryption the destination's `FIL_PAGE_TYPE` is
`FIL_PAGE_COMPRESSED_AND_ENCRYPTED` iff the source was
`FIL_PAGE_COMPRESSED`, `FIL_PAGE_ENCRYPTED_RTREE` iff it was
`FIL_PAGE_RTREE`, and otherwise `FIL_PAGE_ENCRYPTED` with the old type
stored at `FIL_PAGE_ORIGINAL_TYPE_V1` (lines 1241-1253); and after a
successful decrypt of the encrypted page, `FIL_PAGE_TYPE` equals the
pre-encrypt page type again (lines 1728-1742). -/
theorem C4_page_type_discipline (c : Cipher) (ctx : Ctx) (zip : Bool)
    (src : Buf) (L : Nat) (d0 : Buf) (bs : Nat)
    (hm : ctx.mtype ≠ EType.NONE) :
    (pageTypeOf ((encrypt_low c ctx zip src L d0).dst) =
        if pageTypeOf src = FIL_PAGE_COMPRESSED then
          FIL_PAGE_COMPRESSED_AND_ENCRYPTED
        else if pageTypeOf src = FIL_PAGE_RTREE then FIL_PAGE_ENCRYPTED_RTREE
        else FIL_PAGE_ENCRYPTED) ∧
    (pageTypeOf src ≠ FIL_PAGE_COMPRESSED → pageTypeOf src ≠ FIL_PAGE_RTREE →
      r2 ((encrypt_low c ctx zip src L d0).dst) FIL_PAGE_ORIGINAL_TYPE_V1 =
        pageTypeOf src) ∧
    (∀ b', decrypt c ctx zip bs ((encrypt_low c ctx zip src L d0).dst) L =
        some b' → pageTypeOf b' = pageTypeOf src) := by
  have htype : pageTypeOf ((encrypt_low c ctx zip src L d0).dst) =
      if pageTypeOf src = FIL_PAGE_COMPRESSED then
        FIL_PAGE_COMPRESSED_AND_ENCRYPTED
      else if pageTypeOf src = FIL_PAGE_RTREE then FIL_PAGE_ENCRYPTED_RTREE
      else FIL_PAGE_ENCRYPTED := by
    by_cases hpt : pageTypeOf src = FIL_PAGE_COMPRESSED
    · rw [if_pos hpt]
      exact encPage_dst_pageType_c c ctx zip src L d0 hpt
    · rw [if_neg hpt]
      exact encPage_dst_pageType c ctx zip src L d0 hpt
  refine ⟨htype, fun hpt hrt => encPage_dst_orig c ctx zip src L d0 hpt hrt,
    fun b' hb' => ?_⟩
  have henc : is_encrypted_page ((encrypt_low c ctx zip src L d0).dst) := by
    unfold is_encrypted_page
    rw [htype]
    by_cases hpt : pageTypeOf src = FIL_PAGE_COMPRESSED
    · rw [if_pos hpt]
      right; left; rfl
    · rw [if_neg hpt]
      by_cases hrt : pageTypeOf src = FIL_PAGE_RTREE
      · rw [if_pos hrt]
        right; right; rfl
      · rw [if_neg hrt]
        left; rfl
  have hdec := decrypt_pageType c ctx zip bs _ L henc hm b' hb'
  rw [hdec, htype]
  by_cases hpt : pageTypeOf src = FIL_PAGE_COMPRESSED
  · simp only [if_pos hpt]
    rw [hpt]
    simp [FIL_PAGE_COMPRESSED_AND_ENCRYPTED, FIL_PAGE_ENCRYPTED,
      FIL_PAGE_ENCRYPTED_RTREE, FIL_PAGE_COMPRESSED]
  · simp only [if_neg hpt]
    by_cases hrt : pageTypeOf src = FIL_PAGE_RTREE
    · simp only [if_pos hrt]
      rw [hrt]
      simp [FIL_PAGE_ENCRYPTED_RTREE, FIL_PAGE_ENCRYPTED, FIL_PAGE_RTREE]
    · simp only [if_neg hrt]
      simp only [eq_self_iff_true, if_true]
      exact encPage_dst_orig c ctx zip src L d0 hpt hrt

theorem C4_page_type_discipline_witness :
    pageTypeOf ((encrypt_low xorCipher ctxA false cPage 80 zeroBuf).dst) =
      FIL_PAGE_ENCRYPTED ∧
    r2 ((encrypt_low xorCipher ctxA false cPage 80 zeroBuf).dst)
        FIL_PAGE_ORIGINAL_TYPE_V1 = pageTypeOf cPage := by
  have h := C4_page_type_discipline xorCipher ctxA false cPage 80 zeroBuf 1
    (by decide)
  refine ⟨?_, h.2.1 (by decide) (by decide)⟩
  rw [h.1]
  decide

/-- C5: page encryption reports a destination length equal to the
source length (lines 1319-1321); the two-pass tail scheme is
length-preserving on the data region for any data length, both on
encrypt and on decrypt (lines 1200-1227, 1640-1699); page encryption
writes nothing at or beyond the source length; and log blocks stay
fixed 512-byte units: `encrypt_log_block` writes nothing at or beyond
`OS_FILE_LOG_BLOCK_SIZE`. -/
theorem C5_length_preservation (c : Cipher) (ctx : Ctx) (zip : Bool)
    (src : Buf) (L : Nat) (d0 : Buf) (crc : List Nat → Nat)
    (hc : Lawful c) :
    ((encrypt_low c ctx zip src L d0).dstLen = L) ∧
    (∀ p : List Nat, 32 ≤ p.length →
      (encDataL c p).length = p.length ∧
      (decDataL c (encDataL c p)).length = p.length) ∧
    (pageTypeOf src ≠ FIL_PAGE_COMPRESSED → FIL_PAGE_DATA ≤ L →
      32 ≤ encDataLenOf ctx.mtype zip src L →
      ∀ i, L ≤ i → (encrypt_low c ctx zip src L d0).dst i = d0 i) ∧
    (∀ i, OS_FILE_LOG_BLOCK_SIZE ≤ i →
      encrypt_log_block c ctx crc src d0 i = d0 i) := by
  refine ⟨?_, fun p hp => ⟨encDataL_length c hc p hp, ?_⟩,
    fun hpt hL hn i hi => ?_, fun i hi =>
      encrypt_log_block_high c hc ctx crc src d0 i hi⟩
  · simp only [encrypt_low]
    split <;> rfl
  · rw [decDataL_encDataL c hc p hp]
  · have hval : encDataLenOf ctx.mtype zip src L ≤ L - FIL_PAGE_DATA := by
      unfold encDataLenOf srcEncLenOf
      simp only [hpt, and_false, false_and, if_false, ite_false]
      split <;> omega
    apply encPage_dst_high c hc ctx zip src L d0 hpt hn
    omega

theorem C5_length_preservation_witness :
    (encrypt_low xorCipher ctxA false cPage 80 zeroBuf).dstLen = 80 ∧
    encrypt_log_block xorCipher ctxA crc7 cPage zeroBuf 600 = zeroBuf 600 := by
  have h := C5_length_preservation xorCipher ctxA false cPage 80 zeroBuf crc7
    xorCipher_lawful
  exact ⟨h.1, h.2.2.2 600 (by decide)⟩

/-- C7: a page encrypted in keyring mode carries the context's key
version in the 4-byte key-version field of the destination page, and
that field is non-zero whenever the context's version is (the code
asserts `m_key_version != 0` at line 1296); for non-compressed pages
the field is `FIL_PAGE_ENCRYPTION_KEY_VERSION` (line 1307), for
compressed pages it sits right after the zeroed compression-header
word at `FIL_PAGE_DATA + 4` (lines 1301-1305). -/
theorem C7_keyring_version_nonzero (c : Cipher) (ctx : Ctx) (zip : Bool)
    (src : Buf) (L : Nat) (d0 : Buf) (hk : ctx.mtype = EType.KEYRING)
    (hv : ctx.keyVersion ≠ 0) (hv32 : ctx.keyVersion < 4294967296) :
    (pageTypeOf src ≠ FIL_PAGE_COMPRESSED →
      r4 ((encrypt_low c ctx zip src L d0).dst)
          FIL_PAGE_ENCRYPTION_KEY_VERSION = ctx.keyVersion ∧
      r4 ((encrypt_low c ctx zip src L d0).dst)
          FIL_PAGE_ENCRYPTION_KEY_VERSION ≠ 0) ∧
    (pageTypeOf src = FIL_PAGE_COMPRESSED →
      r4 ((encrypt_low c ctx zip src L d0).dst) (FIL_PAGE_DATA + 4) =
          ctx.keyVersion ∧
      r4 ((encrypt_low c ctx zip src L d0).dst) (FIL_PAGE_DATA + 4) ≠ 0) := by
  constructor
  · intro hpt
    have hval : r4 ((encrypt_low c ctx zip src L d0).dst)
        FIL_PAGE_ENCRYPTION_KEY_VERSION = ctx.keyVersion := by
      rw [encrypt_low_shape_nc c ctx zip src L d0 hpt]
      dsimp only
      rw [if_pos hk, r4_w4]
      exact Nat.mod_eq_of_lt hv32
    exact ⟨hval, by rw [hval]; exact hv⟩
  · intro hpt
    have hval : r4 ((encrypt_low c ctx zip src L d0).dst)
        (FIL_PAGE_DATA + 4) = ctx.keyVersion := by
      rw [encrypt_low_shape_c c ctx zip src L d0 hpt]
      dsimp only
      rw [if_pos hk, r4_w4]
      exact Nat.mod_eq_of_lt hv32
    exact ⟨hval, by rw [hval]; exact hv⟩

theorem C7_keyring_version_nonzero_witness :
    r4 ((encrypt_low xorCipher ctxK false cPage 80 zeroBuf).dst)
        FIL_PAGE_ENCRYPTION_KEY_VERSION = ctxK.keyVersion ∧
    r4 ((encrypt_low xorCipher ctxK false cPage 80 zeroBuf).dst)
        FIL_PAGE_ENCRYPTION_KEY_VERSION ≠ 0 :=
  (C7_keyring_version_nonzero xorCipher ctxK false cPage 80 zeroBuf rfl
    (by decide) (by decide)).1 (by decide)

/-- C9 (amended): after page encryption every byte of the first
`FIL_PAGE_DATA` bytes of the destination equals the source byte,
except the rewritten `FIL_PAGE_TYPE` word (all pages, lines 1241-1253),
the `FIL_PAGE_ORIGINAL_TYPE_V1` word on pages that are neither
compressed nor R-tree, and, in keyring mode on non-compressed pages,
the 4-byte `FIL_PAGE_ENCRYPTION_KEY_VERSION` field (line 1307). -/
theorem C9_header_copy (c : Cipher) (ctx : Ctx) (zip : Bool) (src : Buf)
    (L : Nat) (d0 : Buf) (i : Nat) (hi : i < FIL_PAGE_DATA)
    (h24 : i ≠ FIL_PAGE_TYPE) (h25 : i ≠ FIL_PAGE_TYPE + 1)
    (hncex : pageTypeOf src ≠ FIL_PAGE_COMPRESSED →
      i ≠ FIL_PAGE_ORIGINAL_TYPE_V1 ∧ i ≠ FIL_PAGE_ORIGINAL_TYPE_V1 + 1 ∧
      (ctx.mtype = EType.KEYRING →
        i < FIL_PAGE_ENCRYPTION_KEY_VERSION ∨
          FIL_PAGE_ENCRYPTION_KEY_VERSION + 4 ≤ i)) :
    (encrypt_low c ctx zip src L d0).dst i = src i := by
  by_cases hpt : pageTypeOf src = FIL_PAGE_COMPRESSED
  · exact encPage_dst_header_c c ctx zip src L d0 hpt i hi h24 h25
  · obtain ⟨h28, h29, hkv⟩ := hncex hpt
    exact encPage_dst_header c ctx zip src L d0 hpt i hi h24 h25 h28 h29 hkv

theorem C9_header_copy_witness :
    (encrypt_low xorCipher ctxK false cPage 80 zeroBuf).dst 10 = cPage 10 :=
  C9_header_copy xorCipher ctxK false cPage 80 zeroBuf 10 (by decide)
    (by decide) (by decide) (by decide)

/-- C9 counterexample to the unamended claim: the `FIL_PAGE_TYPE` word
lies inside the first `FIL_PAGE_DATA` bytes and is rewritten, so the
header is not copied verbatim byte for byte. -/
theorem C9_header_copy_counterexample :
    (encrypt_low xorCipher ctxA false cPage 80 zeroBuf).dst FIL_PAGE_TYPE ≠
      cPage FIL_PAGE_TYPE := by decide

/-- C10: keyring-mode page encryption mutates the caller's source page,
writing the 4-byte key version at `FIL_PAGE_ENCRYPTION_KEY_VERSION`
into the source buffer (line 1299) and touching nothing else of it,
while non-keyring (AES) encryption leaves the source untouched. -/
theorem C10_source_mutation (c : Cipher) (ctx : Ctx) (zip : Bool) (src : Buf)
    (L : Nat) (d0 : Buf) :
    (ctx.mtype = EType.KEYRING →
      r4 ((encrypt_low c ctx zip src L d0).src)
          FIL_PAGE_ENCRYPTION_KEY_VERSION = ctx.keyVersion % 4294967296 ∧
      ∀ i, i < FIL_PAGE_ENCRYPTION_KEY_VERSION ∨
          FIL_PAGE_ENCRYPTION_KEY_VERSION + 4 ≤ i →
        (encrypt_low c ctx zip src L d0).src i = src i) ∧
    (ctx.mtype = EType.AES → (encrypt_low c ctx zip src L d0).src = src) := by
  constructor
  · intro hk
    rw [encrypt_low_src, if_pos hk]
    exact ⟨r4_w4 src FIL_PAGE_ENCRYPTION_KEY_VERSION ctx.keyVersion,
      fun i hi => w4_out src FIL_PAGE_ENCRYPTION_KEY_VERSION ctx.keyVersion i hi⟩
  · intro hA
    rw [encrypt_low_src, if_neg (by rw [hA]; decide)]

theorem C10_source_mutation_witness :
    r4 ((encrypt_low xorCipher ctxK false cPage 80 zeroBuf).src)
        FIL_PAGE_ENCRYPTION_KEY_VERSION = ctxK.keyVersion % 4294967296 ∧
    (encrypt_low xorCipher ctxA false cPage 80 zeroBuf).src = cPage :=
  ⟨((C10_source_mutation xorCipher ctxK false cPage 80 zeroBuf).1 rfl).1,
    (C10_source_mutation xorCipher ctxA false cPage 80 zeroBuf).2 rfl⟩

/-- C8 (amended): for a keyring-mode log block the stored trailer
checksum equals `crc32(encrypted block) + key_version` reduced modulo
2^32 by `mach_write_to_4` (lines 1055-1058); and provided that sum
does not overflow 32 bits, `decrypt_log_block` recovers the encrypting
key version by the 64-bit `ulint` subtraction
`written_checksum - crc32(cipher block)` and loads that version's key
exactly when it differs from the context's current version and is not
`REDO_LOG_ENCRYPT_NO_VERSION` (lines 1391-1404). -/
theorem C8_log_checksum_version (c cur : Cipher) (ctx dctx : Ctx)
    (crc : List Nat → Nat) (load : Nat → Nat × Cipher) (src d0 : Buf)
    (hk : ctx.mtype = EType.KEYRING) (hk' : dctx.mtype = EType.KEYRING)
    (hno : log_block_calc_checksum_crc32 crc
        (encrypt_log_block c ctx crc src d0) + ctx.keyVersion < 4294967296) :
    log_block_get_checksum (encrypt_log_block c ctx crc src d0) =
      (log_block_calc_checksum_crc32 crc (encrypt_log_block c ctx crc src d0) +
        ctx.keyVersion) % 4294967296 ∧
    Option.map (fun r => (r.2.1, r.2.2))
        (decrypt_log_block cur dctx crc load
          (encrypt_log_block c ctx crc src d0)) =
      some (if dctx.keyVersion ≠ ctx.keyVersion ∧
            ctx.keyVersion ≠ REDO_LOG_ENCRYPT_NO_VERSION then
          load ctx.keyVersion
        else (dctx.keyVersion, cur)) := by
  have hE := encrypt_log_block_keyring c ctx crc src d0 hk
  have hcalc : log_block_calc_checksum_crc32 crc
      (encrypt_log_block c ctx crc src d0) =
      log_block_calc_checksum_crc32 crc (encLogBody c src d0) := by
    rw [hE, log_calc_set_checksum]
  have hno' : log_block_calc_checksum_crc32 crc (encLogBody c src d0) +
      ctx.keyVersion < 4294967296 := by
    rw [hcalc] at hno
    exact hno
  have hwritten : log_block_get_checksum (encrypt_log_block c ctx crc src d0) =
      log_block_calc_checksum_crc32 crc (encLogBody c src d0) +
        ctx.keyVersion := by
    rw [hE, log_get_set_checksum]
    exact Nat.mod_eq_of_lt hno'
  constructor
  · rw [hwritten, hcalc]
    exact (Nat.mod_eq_of_lt hno').symm
  · have hm' : dctx.mtype ≠ EType.NONE := by
      rw [hk']
      decide
    have hkv_rec : (log_block_get_checksum (encrypt_log_block c ctx crc src d0) +
        18446744073709551616 -
        log_block_calc_checksum_crc32 crc (encrypt_log_block c ctx crc src d0) %
          18446744073709551616) % 18446744073709551616 = ctx.keyVersion := by
      rw [hwritten, hcalc]
      have hlt : log_block_calc_checksum_crc32 crc (encLogBody c src d0) <
          18446744073709551616 := by omega
      rw [Nat.mod_eq_of_lt hlt]
      omega
    unfold decrypt_log_block
    rw [if_neg hm']
    dsimp only
    simp only [if_pos hk']
    simp only [hkv_rec]
    rw [Option.map_some']

theorem C8_log_checksum_version_witness :
    log_block_get_checksum (encrypt_log_block xorCipher ctxK2 crc7 cPage zeroBuf) =
      (log_block_calc_checksum_crc32 crc7
          (encrypt_log_block xorCipher ctxK2 crc7 cPage zeroBuf) +
        ctxK2.keyVersion) % 4294967296 ∧
    Option.map (fun r => (r.2.1, r.2.2))
        (decrypt_log_block xorCipher ctxK3 crc7 load7
          (encrypt_log_block xorCipher ctxK2 crc7 cPage zeroBuf)) =
      some (if ctxK3.keyVersion ≠ ctxK2.keyVersion ∧
            ctxK2.keyVersion ≠ REDO_LOG_ENCRYPT_NO_VERSION then
          load7 ctxK2.keyVersion
        else (ctxK3.keyVersion, xorCipher)) :=
  C8_log_checksum_version xorCipher xorCipher ctxK2 ctxK3 crc7 load7 cPage
    zeroBuf rfl rfl (by decide)

/-- C8 counterexample to the unamended claim: with a CRC32 of 2^32 - 1
and encrypting key version 2 the stored checksum wraps modulo 2^32, and
the 64-bit subtraction in `decrypt_log_block` recovers
2^64 - 2^32 + 2 instead of 2. -/
theorem C8_log_checksum_version_counterexample :
    Option.map (fun r => r.2.1)
        (decrypt_log_block xorCipher ctxK3 crcBig load7
          (encrypt_log_block xorCipher ctxK2 crcBig cPage zeroBuf)) ≠
      some 2 := by decide

/-- C1 counterexample to the unamended claim, in two parts: (a) decrypt
does not restore the byte at `FIL_PAGE_ORIGINAL_TYPE_V1` (it is
overwritten with the `FIL_PAGE_ENCRYPTED` marker), so
`decrypt(C, encrypt(C, P))` differs from `P` there; and (b) a
keyring-mode R-tree page does not round-trip at all: encrypt takes
`data_len = src_enc_len - FIL_PAGE_DATA - 4` for every non-compressed
keyring page (lines 1164-1168) while decrypt subtracts the 4 bytes only
for `FIL_PAGE_ENCRYPTED` (lines 1627-1630), so the R-tree page is
decrypted with a misaligned window and differs from the source already
at byte 44, a byte no header rewrite touches. -/
theorem C1_round_trip_counterexample :
    (Option.map (fun b => b FIL_PAGE_ORIGINAL_TYPE_V1)
        (decrypt xorCipher ctxA false 1
          ((encrypt_low xorCipher ctxA false cPage 80 zeroBuf).dst) 80) ≠
      some (cPage FIL_PAGE_ORIGINAL_TYPE_V1)) ∧
    (Option.map (fun b => b 44)
        (decrypt xorCipher ctxK false 1
          ((encrypt_low xorCipher ctxK false rtPage 80 zeroBuf).dst) 80) ≠
      some (rtPage 44)) := by
  exact ⟨by decide, by decide⟩

theorem C1_round_trip_witness :
    Option.map (fun b => b 50)
        (decrypt xorCipher ctxA false 1
          ((encrypt_low xorCipher ctxA false cPage 80 zeroBuf).dst) 80) =
      some (cPage 50) := by
  obtain ⟨b, hb⟩ := Option.isSome_iff_exists.mp
    (show (decrypt xorCipher ctxA false 1
        ((encrypt_low xorCipher ctxA false cPage 80 zeroBuf).dst) 80).isSome
      from by decide)
  rw [hb, Option.map_some']
  have h := (C1_round_trip xorCipher ctxA cPage 80 zeroBuf 1 xorCipher_lawful
      (Or.inl rfl) cPage_bytes (by decide) (by decide)
      (fun hkk => absurd hkk (by decide)) (by decide) b hb).1 50 (by decide)
      (by decide) (by decide) (fun hkk => absurd hkk (by decide))
  rw [h]

end Model
